import Mathlib

/-!
Verification of the PDF renderer core of `src/Plugins/Pdf/pdf_hummus_renderer.cpp`
(TeXmacs pdf_hummus renderer).

This file gives a shallow embedding, in Lean, of the data model and the
operations of the renderer that the specification talks about:

* the clip-stack discipline of `set_clipping` / `end_page`;
* the outline (bookmark) tree resolution of `recurse` / `flush_outlines`;
* the glyph-run batching of `draw_glyphs`;
* the Type 3 (synthetic) font dictionary writer `t3font_rep::write_definition`;
* the Bezier decomposition of elliptical arcs in `bezier_arc`;
* the image resource pool of `pdf_hummus_renderer_rep::image`;
* the label-id map of `get_label_id` / `anchor` / `href` / `flush_dests`;
* a renderer state machine covering `draw`, `set_pencil`, `set_clipping`,
  `line`, `lines`, `clear`, `fill`, `polygon` and `arc`, which records every
  token written to the page content stream together with the size of the
  pending glyph buffer at the moment the token is written.

Modelling conventions:

* TeXmacs `SI` coordinates and C++ `int`s are `Int`; C++ `/` on integers is
  `Int.tdiv` (truncation toward zero); the `to_x`/`to_y` pattern
  `if (x>=0) x/pixel else (x-pixel+1)/pixel` is floor division `Int.fdiv`.
* C++ `double` values produced by exact arithmetic on integers are modelled
  as `Rat` (all the doubles appearing in the claims are exact in binary or
  are only tested for equality of the defining arithmetic expression).
* Hash maps with iteration-order-independent use are modelled as association
  lists (`List (κ × ν)`), with `List.lookup`.
* The PDFHummus indirect-object registry (`AllocateNewObjectID`) is a `Nat`
  counter; id `0` plays the role of the null id, as in `recurse`.
* TeXmacs strings (byte strings) are `List Nat` where a byte matters
  (`prepare_text`), `String` where only identity matters (font names).
-/

namespace PdfHummus

/-! ## C1: clip stack (`set_clipping`, `end_page`)

`set_clipping (…, restore)` with `restore = false` emits `q` and increments
`clip_level`; with `restore = true` it emits `Q` and decrements `clip_level`
only when it is positive.  `end_page` runs `while (clip_level--) Q();`,
emitting one `Q` per outstanding level.
-/

/-- One `set_clipping` call acting on `clip_level`: `restore = true` is a pop
(guarded: `if (clip_level > 0) clip_level--`), `restore = false` is a push
(`clip_level++`). -/
def clipStep (l : Int) (restore : Bool) : Int :=
  if restore then (if 0 < l then l - 1 else l) else l + 1

/-- `clip_level` after a sequence of `set_clipping` calls in a page that
starts with `clip_level = 0` (as set by `begin_page`). -/
def clipRun (ops : List Bool) : Int :=
  ops.foldl clipStep 0

/-- One `set_clipping` call acting on the pair (clip level, number of `Q`
tokens emitted by restore calls that actually popped a level). -/
def clipPairStep (p : Int × Nat) (r : Bool) : Int × Nat :=
  if r then (if 0 < p.1 then (p.1 - 1, p.2 + 1) else p) else (p.1 + 1, p.2)

/-- Pair (clip level, number of `Q` tokens emitted by restore calls that
actually popped a level) after a sequence of `set_clipping` calls. -/
def clipFold (ops : List Bool) : Int × Nat :=
  ops.foldl clipPairStep (0, 0)

/-- Number of `q` tokens emitted by clip pushes in a page
(`set_clipping` with `restore = false` emits exactly one `q`). -/
def clipQCount (ops : List Bool) : Nat :=
  (ops.filter (fun r => !r)).length

/-- Number of `Q` tokens emitted by the `while (clip_level--) Q();` loop in
`end_page`: one per outstanding clip level. -/
def endPageQCount (ops : List Bool) : Nat :=
  (clipRun ops).toNat

/-! ## C6: image resource pool (`pdf_hummus_renderer_rep::image`)

`image` looks the source key (`tuple (u->t)`) up in `image_pool`; on a miss
it allocates a fresh object id from the registry and inserts the new
`pdf_image`; on a hit it reuses the stored image.  Keys are modelled as `Nat`.
-/

/-- State of the image pool together with the registry counter. -/
structure ImgState where
  pool : List (Nat × Nat)
  ctr : Nat
deriving DecidableEq

/-- `pdf_hummus_renderer_rep::image`, restricted to its pool/registry
effect: look up the key, allocate a fresh id on a miss.  Returns the new
state and the object id used for the placement. -/
def imageStep (s : ImgState) (k : Nat) : ImgState × Nat :=
  match List.lookup k s.pool with
  | some i => (s, i)
  | none => ({ pool := s.pool ++ [(k, s.ctr)], ctr := s.ctr + 1 }, s.ctr)

/-- Place a sequence of images (by source key). -/
def runImages (ks : List Nat) (s : ImgState) : ImgState :=
  ks.foldl (fun s k => (imageStep s k).1) s

/-- The object id embedded for source key `k`, if any. -/
def imgId (s : ImgState) (k : Nat) : Option Nat :=
  List.lookup k s.pool

/-- Initial (empty) image pool. -/
def imgInit : ImgState := { pool := [], ctr := 0 }

/-! ## C8: label ids (`get_label_id`, `anchor`, `href`, `flush_dests`) -/

/-- `prepare_text` on one byte: escape `(`, `)`, `\`; write control and
non-ASCII bytes as octal escapes; pass the rest through
(`pdf_hummus_renderer.cpp`, `prepare_text`). -/
def prepChar (c : Nat) : List Nat :=
  if c = 40 ∨ c = 41 ∨ c = 92 then [92, c]
  else if c ≤ 32 ∨ 128 ≤ c then [92, 48 + c / 64, 48 + c / 8 % 8, 48 + c % 8]
  else [c]

/-- `prepare_text` on a byte string. -/
def prepareText (s : List Nat) : List Nat :=
  (s.map prepChar).flatten

/-- The label-id map (`label_id`) and its counter (`label_count`). -/
structure LabState where
  labelId : List (List Nat × Nat)
  labelCount : Nat
deriving DecidableEq

/-- `get_label_id`: assign `label_count` (then increment it) on first use of
a label, return the stored id afterwards. -/
def getLabelId (s : LabState) (l : List Nat) : LabState × Nat :=
  match List.lookup l s.labelId with
  | some i => (s, i)
  | none =>
    ({ labelId := s.labelId ++ [(l, s.labelCount)], labelCount := s.labelCount + 1 },
     s.labelCount)

/-- Fold `get_label_id` over a list of labels (ignoring the returned ids). -/
def runLabels (ls : List (List Nat)) (s : LabState) : LabState :=
  ls.foldl (fun s l => (getLabelId s l).1) s

/-- The label map at document construction (`label_count = 0`). -/
def labInit : LabState := { labelId := [], labelCount := 0 }

/-- Document-level hyperlink state: the label-id map, the recorded
destinations (`dests`, in arrival order, labels already passed through
`prepare_text` by `anchor`) and, for each `href`, the id its annotation
dictionary names (`some i` for an internal `#…` target, `none` for an
external URI action). -/
structure DocState where
  lab : LabState
  dests : List (List Nat × Nat × Int × Int)
  annots : List (Option Nat)
deriving DecidableEq

/-- The hyperlink state at document construction. -/
def docInit : DocState := { lab := labInit, dests := [], annots := [] }

/-- `anchor label x y`: record `(prepare_text label, page_num, x, y)` in
`dests`. It does not touch the label-id map. -/
def anchorOp (d : DocState) (label : List Nat) (page : Nat) (x y : Int) : DocState :=
  { d with dests := d.dests ++ [(prepareText label, page, x, y)] }

/-- `href label …`: when the label starts with `#` (byte 35), the annotation
dictionary names `/label` ++ `get_label_id (prepare_text label)`; otherwise
an URI action is written and no label id is involved. -/
def hrefOp (d : DocState) (label : List Nat) : DocState :=
  if label.head? = some 35 then
    let r := getLabelId d.lab (prepareText label)
    { d with lab := r.1, annots := d.annots ++ [some r.2] }
  else
    { d with annots := d.annots ++ [none] }

/-- `flush_dests`: walk `dests` in order, writing one entry
`/label<id> [page … ]` per recorded destination, with
`id = get_label_id label` looked up in (and possibly extending) the label
map.  Returns the final label map and the written entries
`(id, page, x, y)`. -/
def flushDestStep (p : LabState × List (Nat × Nat × Int × Int))
    (e : List Nat × Nat × Int × Int) : LabState × List (Nat × Nat × Int × Int) :=
  let r := getLabelId p.1 e.1
  (r.1, p.2 ++ [(r.2, e.2.1, e.2.2.1, e.2.2.2)])

/-- `flush_dests` proper. -/
def flushDests (d : DocState) : LabState × List (Nat × Nat × Int × Int) :=
  d.dests.foldl flushDestStep (d.lab, [])

/-! ## C5: `bezier_arc`

Angles: `alpha` and `delta` arrive in units of 1/64 degree (the code tests
`delta == 360*64` and caps segments at `90*64`).  The path lives on the unit
circle of a local frame (after the scale/center `cm` and the `alpha`
rotation); inside the loop every `cm` is a pure rotation, so each emitted
point is a point of the unit circle at an exactly known angle.  We therefore
represent a path point either as the center `(0,0)` or as the unit-circle
point at a given angle; angles are tracked in half-units (1/128 degree) so
that the `(phi + prev_phi)/2` rotations stay integral.  Two unit-circle
points are equal iff their angles agree modulo a full turn
(`360*128` half-units), and the center never equals a unit-circle point. -/

/-- A point of the arc path in the arc's local frame: either the center of
the ellipse, or the point of the unit circle at angle `a` half-units
(1/128 degree). -/
inductive ArcPoint where
  | center : ArcPoint
  | circ (a : Int) : ArcPoint
deriving DecidableEq

/-- Exact equality of local-frame arc points: the center is only equal to
itself, and two unit-circle points coincide iff their angles agree modulo a
full turn (`46080` half-units = 360 degrees). -/
def arcPointEq : ArcPoint → ArcPoint → Prop
  | ArcPoint.center, ArcPoint.center => True
  | ArcPoint.circ a, ArcPoint.circ b => a % 46080 = b % 46080
  | _, _ => False

instance : ∀ (p q : ArcPoint), Decidable (arcPointEq p q)
  | ArcPoint.center, ArcPoint.center => Decidable.isTrue trivial
  | ArcPoint.center, ArcPoint.circ _ => Decidable.isFalse id
  | ArcPoint.circ _, ArcPoint.center => Decidable.isFalse id
  | ArcPoint.circ a, ArcPoint.circ b => inferInstanceAs (Decidable (a % 46080 = b % 46080))

/-- One cubic segment emitted by the `while (delta > 0)` loop of
`bezier_arc`: `phi` is its angular span in 1/64 degree (`min delta (90*64)`),
`frameRot` the accumulated frame rotation (in half-units) at the time the
`c` operator is emitted — the loop has rotated the frame by
`(phi + prev_phi)/2` degrees-worth each iteration.  The endpoint the `c`
operator reaches is the unit-circle point at `frameRot + phi` half-units,
and its two control points are the closed-form values
`bx1 = (4 - cos(phi/2))/3`, `by1 = (1 - cos(phi/2))(3 - cos(phi/2))/(3 sin(phi/2))`
(mirrored), mapped through the same frame. -/
structure ArcSeg where
  phi : Int
  frameRot : Int
deriving DecidableEq

/-- The endpoint of a segment: unit-circle angle in half-units. -/
def ArcSeg.endAngle (s : ArcSeg) : Int := s.frameRot + s.phi

/-- The `while (delta > 0)` loop of `bezier_arc`: split off
`phi = min delta (90*64)`, rotate the frame by `(phi + prev_phi)` half-units,
emit one cubic segment. -/
def arcSegsF : Nat → Int → Int → Int → List ArcSeg
  | 0, _, _, _ => []
  | fuel + 1, delta, prevPhi, accRot =>
    if 0 < delta then
      let phi := min delta 5760
      let accRot2 := accRot + (phi + prevPhi)
      { phi := phi, frameRot := accRot2 } :: arcSegsF fuel (delta - phi) phi accRot2
    else []

/-- Enough loop iterations for an angular span `delta`
(the loop runs at most `delta/5760 + 1` times). -/
def arcFuel (delta : Int) : Nat :=
  delta.toNat / 5760 + 1

/-- The segment list of `bezier_arc` for span `delta`, starting from
`prev_phi = prevPhi` and accumulated frame rotation `accRot`. -/
def arcSegs (delta prevPhi accRot : Int) : List ArcSeg :=
  arcSegsF (arcFuel delta) delta prevPhi accRot

/-- The whole path of `bezier_arc` in the local frame: the starting point
(the `m` operator: the unit-circle point at angle 0 for a closed circle
`delta == 360*64`, the center otherwise, followed by `l` to the circle), the
`l`-reached point when the arc is open, the cubic segments, and whether the
path was closed back with `h`. -/
structure ArcPath where
  start : ArcPoint
  segs : List ArcSeg
deriving DecidableEq

/-- `bezier_arc` path construction (local frame, `alpha` rotation already
absorbed into the frame): `m(1,0)` for a full-circle delta, else
`m(0,0); l(1,0)`; then the segment loop with `prev_phi = 0`. -/
def bezierArcPath (delta : Int) : ArcPath :=
  { start := if delta = 23040 then ArcPoint.circ 0 else ArcPoint.center,
    segs := arcSegs delta 0 0 }

/-- The last point the emitted operators reach before the closing `h`:
the endpoint of the last cubic segment, or the point reached by `m`/`l`
when no segment is emitted (`l` target, angle 0, for an open arc; the `m`
point for the closed-circle branch). -/
def arcFinalPoint (delta : Int) : ArcPoint :=
  match (bezierArcPath delta).segs.getLast? with
  | some s => ArcPoint.circ s.endAngle
  | none => ArcPoint.circ 0

/-- The first point of the drawn arc curve proper: for the closed-circle
branch the `m` point (unit circle, angle 0); for an open arc the path starts
at the center (`m(0,0)`). -/
def arcFirstPoint (delta : Int) : ArcPoint :=
  (bezierArcPath delta).start

/-! ## C4: Type 3 font flush (`t3font_rep::write_definition`)

The glyph metrics a `glyph` carries (`width`, `height`, `xoff`, `yoff`,
`lwidth`); `fn : Nat → T3Glyph` plays the role of `font_glyphs::get`. -/

/-- The metrics of one bitmap glyph used by `write_char` and
`write_definition`. -/
structure T3Glyph where
  width : Int
  height : Int
  xoff : Int
  yoff : Int
  lwidth : Int
deriving DecidableEq

/-- A token of the `/Encoding /Differences` array: a code that (re)starts a
run, or a glyph name `/ch<n>`. -/
inductive DiffTok where
  | code (n : Nat) : DiffTok
  | glyphName (n : Nat) : DiffTok
deriving DecidableEq

/-- Whether a differences token is a run-starting code. -/
def DiffTok.isCode : DiffTok → Bool
  | DiffTok.code _ => true
  | DiffTok.glyphName _ => false

/-- The result of `write_definition`: the font dictionary fields the claims
talk about, plus the per-glyph indirect objects (as their allocated ids, in
the ascending-code order they are written). -/
structure T3Def where
  firstchar : Nat
  lastchar : Nat
  fontBBox : Int × Int × Int × Int
  widths : List Int
  diffs : List DiffTok
  charIds : List Nat
deriving DecidableEq

/-- `merge_sort` over the iterated `used_chars` keys: the used codes in
ascending order, duplicates removed (a hash map holds each key once). -/
def sortedCodes (used : List Nat) : List Nat :=
  List.insertionSort (fun a b => a ≤ b) used.dedup

/-- `t3font_rep::update_bbox` folded over the glyphs written by
`write_definition` (each `write_char` calls `update_bbox` with
`llx = -xoff`, `lly = yoff-height+1`, `urx = width-xoff+1`, `ury = yoff+1`;
the first glyph initialises the box, later ones extend it). -/
def updBBox (st : Option (Int × Int × Int × Int)) (g : T3Glyph) :
    Option (Int × Int × Int × Int) :=
  let llx := -g.xoff
  let lly := g.yoff - g.height + 1
  let urx := g.width - g.xoff + 1
  let ury := g.yoff + 1
  match st with
  | none => some (llx, lly, urx, ury)
  | some (b0, b1, b2, b3) =>
    some (min b0 llx, min b1 lly, max b2 urx, max b3 ury)

/-- The widths array: one entry per code in `firstchar..lastchar`, the
glyph's `lwidth` for a used code, `0` for an unused one. -/
def t3Widths (fn : Nat → T3Glyph) (used : List Nat) (first last : Nat) : List Int :=
  (List.range (last + 1 - first)).map
    (fun k => if (first + k) ∈ used then (fn (first + k)).lwidth else 0)

/-- The `/Differences` array: scan `firstchar..lastchar`; a used code is
written as `/ch<i>`, preceded by the code itself whenever it does not
immediately follow the previously written code (`previousEncoding + 1 != i`,
with `previousEncoding` starting at `firstchar`). -/
def t3Diffs (used : List Nat) (first last : Nat) : List DiffTok :=
  ((List.range (last + 1 - first)).foldl
    (fun (p : List DiffTok × Nat) k =>
      let i := first + k
      if i ∈ used then
        (p.1 ++ (if p.2 + 1 ≠ i then [DiffTok.code i] else []) ++ [DiffTok.glyphName i],
         i)
      else p)
    ([], first)).1

/-- `t3font_rep::write_definition` for a font whose set of used character
codes is `used` (must be nonempty, as in the source, which reads
`glyph_list[0]`): sort the used codes, take first/last, write one char
object per used glyph (allocating ids `ctr, ctr+1, …` and folding the glyph
boxes into the font box), then the widths array and the differences list. -/
def t3WriteDefinition (fn : Nat → T3Glyph) (used : List Nat) (ctr : Nat) : T3Def :=
  let codes := sortedCodes used
  let first := codes.headD 0
  let last := codes.getLastD 0
  { firstchar := first,
    lastchar := last,
    fontBBox := ((codes.map fn).foldl updBBox none).getD (0, 0, 0, 0),
    widths := t3Widths fn codes first last,
    diffs := t3Diffs codes first last,
    charIds := (List.range codes.length).map (fun i => ctr + i) }

/-! ## C3: glyph-run batching (`pdf_hummus_renderer_rep::draw_glyphs`)

`drawn_glyphs` holds quartets `(ox+x, oy+y, char code, glyph)`; we keep the
two glyph fields the loop reads (`index`, `lwidth`).  The outer loop starts
a run at the first buffered glyph (emitting `Td` to its baseline point); the
inner loop appends glyphs to the run while the baseline `y` is unchanged,
comparing each glyph's `x` with the position predicted by the previous
glyph's advance `w = lwidth*pixel`:  a deviation `dx` with `|dx| < 4*pixel`
is treated as zero, a larger one flushes the pending show string and pushes
the single spacing correction `-dx*(1000/pixel)/fsize` (thousandths of an em
at the current font size; positive values displace leftwards, per the PDF
`TJ` convention). -/

/-- One buffered glyph: the quartet `drawn_glyph (ox+x, oy+y, ch, gl)`,
keeping the glyph's `index` and `lwidth`. -/
structure DG where
  x : Int
  y : Int
  ch : Int
  index : Int
  lwidth : Int
deriving DecidableEq

/-- An element of the `TJ` argument: a show string (list of
`(glyph index, char code)` pairs) or a spacing correction. -/
inductive TJItem where
  | show (g : List (Int × Int)) : TJItem
  | kern (v : Rat) : TJItem
deriving DecidableEq

/-- Append the pending show string `g1` to the `TJ` buffer `g` if it is
nonempty (`if (gbuf1.size()>0) { gbuf.push_back(gbuf1); … }`). -/
def flushShow (g1 : List (Int × Int)) (g : List TJItem) : List TJItem :=
  if g1 = [] then g else g ++ [TJItem.show g1]

/-- The inner `while (1)` loop of `draw_glyphs`: push the current glyph,
stop at the end of the buffer or at a baseline change, otherwise compare the
next glyph's position with the predicted one and either merge (deviation
below `4*pixel` treated as zero) or push one spacing correction.  Returns
the built `TJ` array and the glyphs left for the next run. -/
def tjInner (pixel : Int) (fsize : Rat) :
    List DG → Int → Int → Int → List (Int × Int) → List TJItem →
    List TJItem × List DG
  | [], _, _, _, g1, g => (flushShow g1 g, [])
  | dg :: rest, x, y, w, g1, g =>
    let g2 := g1 ++ [(dg.index, dg.ch)]
    match rest with
    | [] => (flushShow g2 g, [])
    | nxt :: _ =>
      if nxt.y ≠ y then (flushShow g2 g, rest)
      else
        let dx := nxt.x - x - w
        if 4 * pixel ≤ dx ∨ dx ≤ -(4 * pixel) then
          tjInner pixel fsize rest (x + w + dx) y (nxt.lwidth * pixel) []
            (flushShow g2 g ++ [TJItem.kern (-(dx : Rat) * (1000 / (pixel : Rat)) / fsize)])
        else
          tjInner pixel fsize rest (x + w) y (nxt.lwidth * pixel) g2 g

/-- One positioned show run: the baseline point `(bx, by)` the run's `Td`
moves to (in SI units, divided by `pixel` only at emission) and the `TJ`
array. -/
structure TRun where
  bx : Int
  byy : Int
  items : List TJItem
deriving DecidableEq

/-- The outer `while (!is_nil(drawn_glyphs))` loop of `draw_glyphs`: one
`TRun` per baseline run.  The run starts at the first glyph's `(x, y)`
(`bx`, `by`), with the initial predicted advance `w = lwidth*pixel`.
The fuel argument only serves termination: each inner-loop call consumes at
least the run's first glyph, so `l.length` (used by `tjRuns`) is always
enough. -/
def tjRunsF (pixel : Int) (fsize : Rat) : Nat → List DG → List TRun
  | 0, _ => []
  | _ + 1, [] => []
  | fuel + 1, dg :: rest =>
    let r := tjInner pixel fsize (dg :: rest) dg.x dg.y (dg.lwidth * pixel) [] []
    { bx := dg.x, byy := dg.y, items := r.1 } :: tjRunsF pixel fsize fuel r.2

/-- `draw_glyphs` batching: split the buffer into positioned runs. -/
def tjRuns (pixel : Int) (fsize : Rat) (l : List DG) : List TRun :=
  tjRunsF pixel fsize l.length l

/-! ## C2: outline tree resolution (`recurse`, `flush_outlines`)

`outline_data` is the quintuple `(title, page, x, y, level)`; titles are
abstracted to `Nat` tags (the written dictionary uses `prepare_text` of the
title, which is injective on distinct tags for our purposes).  `recurse`
walks the recorded entries once; ids come from the indirect-object registry
(a counter; the real registry never returns 0, which `recurse` uses as the
null id, so the model requires a positive starting counter where it
matters).  Each written dictionary carries `/First`, `/Last` and
`/Count -subCount` only when `subCount > 0`. -/

/-- One recorded outline entry (`outline_data`). -/
structure OEntry where
  title : Nat
  page : Nat
  x : Int
  y : Int
  level : Int
deriving DecidableEq

/-- One written outline item dictionary.  `child = some (first, last, cnt)`
models the `/First`, `/Last`, `/Count` entries, present exactly when the
node has children; `cnt` is the written (negative) count.  `prevId` and
`nextId` are 0 when the corresponding `/Prev` / `/Next` entry is absent. -/
structure ODict where
  curId : Nat
  parentId : Nat
  prevId : Nat
  nextId : Nat
  child : Option (Nat × Nat × Int)
  title : Nat
  page : Nat
deriving DecidableEq

/-- Result of `recurse`'s sibling loop: written dictionaries (in write
order), remaining entries, `lastId`, the sibling count accumulated into
`count`, and the advanced registry counter. -/
structure GoResult where
  out : List ODict
  rest : List OEntry
  lastId : Nat
  count : Nat
  ctr : Nat
deriving DecidableEq

/-- Result of `recurse` proper: additionally the `firstId` out-parameter. -/
structure RecResult where
  out : List ODict
  rest : List OEntry
  firstId : Nat
  lastId : Nat
  count : Nat
  ctr : Nat
deriving DecidableEq

/-- The `while (curId)` loop of `pdf_hummus_renderer_rep::recurse`: take the
next entry, recurse into the immediately following run of strictly deeper
entries (their dictionaries are written first, as in the source — the
recursive `recurse` call is inlined here as the `sub` computation: allocate
the sub-list's first id, run the loop one level down), peek at the next
entry to decide `/Next` (allocating its id only when its level equals the
current one), write the current dictionary, and continue.  `fuel` only
serves termination; `entries.length + 1` is always enough. -/
def outlineGo (fuel : Nat) (parentId : Nat) (it : List OEntry)
    (curId prevId count ctr : Nat) : GoResult :=
  match fuel with
  | 0 => { out := [], rest := it, lastId := prevId, count := count, ctr := ctr }
  | fuel + 1 =>
    if curId = 0 then { out := [], rest := it, lastId := prevId, count := count, ctr := ctr }
    else
      match it with
      | [] => { out := [], rest := [], lastId := prevId, count := count, ctr := ctr }
      | oitem :: it1 =>
        let sub : RecResult :=
          match it1 with
          | nxt :: _ =>
            if oitem.level < nxt.level then
              let r := outlineGo fuel curId it1 ctr 0 0 (ctr + 1)
              { out := r.out, rest := r.rest, firstId := ctr, lastId := r.lastId,
                count := r.count, ctr := r.ctr }
            else { out := [], rest := it1, firstId := 0, lastId := 0, count := 0, ctr := ctr }
          | [] => { out := [], rest := it1, firstId := 0, lastId := 0, count := 0, ctr := ctr }
        let nextAlloc : Nat × Nat :=
          match sub.rest with
          | nxt :: _ => if nxt.level = oitem.level then (sub.ctr, sub.ctr + 1) else (0, sub.ctr)
          | [] => (0, sub.ctr)
        let restR := outlineGo fuel parentId sub.rest nextAlloc.1 curId (count + 1) nextAlloc.2
        { out := sub.out ++
            { curId := curId, parentId := parentId, prevId := prevId, nextId := nextAlloc.1,
              child := if 0 < sub.count then some (sub.firstId, sub.lastId, -(sub.count : Int))
                       else none,
              title := oitem.title, page := oitem.page } :: restR.out,
          rest := restR.rest, lastId := restR.lastId, count := restR.count, ctr := restR.ctr }

/-- `pdf_hummus_renderer_rep::recurse`: allocate the first sibling's id
(0 = none if the entry list is empty), then run the sibling loop. -/
def outlineRecurse (fuel : Nat) (parentId : Nat) (it : List OEntry) (ctr : Nat) :
    RecResult :=
  match it with
  | [] => { out := [], rest := [], firstId := 0, lastId := 0, count := 0, ctr := ctr }
  | _ :: _ =>
    let r := outlineGo fuel parentId it ctr 0 0 (ctr + 1)
    { out := r.out, rest := r.rest, firstId := ctr, lastId := r.lastId,
      count := r.count, ctr := r.ctr }

/-- The top-level `/Outlines` dictionary written by `flush_outlines`. -/
structure OutlineRoot where
  outlineId : Nat
  firstId : Nat
  lastId : Nat
  count : Int
deriving DecidableEq

/-- `flush_outlines`: nothing is written when no outline entries were
recorded; otherwise allocate the root id, resolve the recorded entries and
write the root dictionary whose `/Count` is the top-level sibling count
(positive).  Returns the item dictionaries and the root. -/
def flushOutlines (outlines : List OEntry) (ctr : Nat) :
    Option (List ODict × OutlineRoot) :=
  match outlines with
  | [] => none
  | _ :: _ =>
    let outlineId := ctr
    let r := outlineRecurse (outlines.length + 1) outlineId outlines (ctr + 1)
    some (r.out,
      { outlineId := outlineId, firstId := r.firstId, lastId := r.lastId,
        count := (r.count : Int) })

/-- The direct children, in the written output, of the node with id `i`. -/
def directChildren (out : List ODict) (i : Nat) : List ODict :=
  out.filter (fun d => d.parentId = i)

/-- The number of descendants of node `i` "directly and transitively
owned", computed over the written output (fuel-bounded; `out.length` is
always enough since depth is bounded by the number of nodes). -/
def descCount : Nat → List ODict → Nat → Nat
  | 0, _, _ => 0
  | fuel + 1, out, i =>
    ((directChildren out i).map (fun d => 1 + descCount fuel out d.curId)).sum

/-- The written child-count of a dictionary, as a natural number
(0 when the `/Count` entry is absent; `-cnt` otherwise — the source writes
`/Count -subCount`). -/
def childCountNat (d : ODict) : Nat :=
  match d.child with
  | none => 0
  | some (_, _, c) => (-c).toNat

/-- The `sub` computation inside `outlineGo`'s loop body (the inlined
recursive `recurse` call), named so the loop body can be reasoned about
one piece at a time. -/
def subOf (fuel curId : Nat) (oitem : OEntry) (it1 : List OEntry) (ctr : Nat) : RecResult :=
  match it1 with
  | nxt :: _ =>
    if oitem.level < nxt.level then
      let r := outlineGo fuel curId it1 ctr 0 0 (ctr + 1)
      { out := r.out, rest := r.rest, firstId := ctr, lastId := r.lastId,
        count := r.count, ctr := r.ctr }
    else { out := [], rest := it1, firstId := 0, lastId := 0, count := 0, ctr := ctr }
  | [] => { out := [], rest := it1, firstId := 0, lastId := 0, count := 0, ctr := ctr }

/-- The `/Next`-id allocation inside `outlineGo`'s loop body: the allocated
id (0 = none) and the advanced counter. -/
def nextAllocOf (oitem : OEntry) (sub : RecResult) : Nat × Nat :=
  match sub.rest with
  | nxt :: _ => if nxt.level = oitem.level then (sub.ctr, sub.ctr + 1) else (0, sub.ctr)
  | [] => (0, sub.ctr)

/-- One unfolded step of `outlineGo` (the loop body for a nonzero `curId`
and a nonempty entry list), phrased with `subOf` and `nextAllocOf`. -/
def goStep (fuel parent : Nat) (oitem : OEntry) (it1 : List OEntry)
    (curId prev count ctr : Nat) : GoResult :=
  let sub := subOf fuel curId oitem it1 ctr
  let na := nextAllocOf oitem sub
  let restR := outlineGo fuel parent sub.rest na.1 curId (count + 1) na.2
  { out := sub.out ++
      { curId := curId, parentId := parent, prevId := prev, nextId := na.1,
        child := if 0 < sub.count then some (sub.firstId, sub.lastId, -(sub.count : Int))
                 else none,
        title := oitem.title, page := oitem.page } :: restR.out,
    rest := restR.rest, lastId := restR.lastId, count := restR.count, ctr := restR.ctr }

/-- Structural invariant of a `recurse` result obtained with parent id
`parent` and registry counter `ctr`: the counter only grows, written node
ids and non-`parent` parent ids are fresh (allocated in `[ctr, r.ctr)`),
the accumulated `count` is the number of nodes written directly under
`parent`, and every written dictionary's `/Count` equals its number of
direct children in the output (with the `/First`/`/Last`/`/Count` block
present iff there are children). -/
def recResultInv (parent ctr : Nat) (r : RecResult) : Prop :=
  ctr ≤ r.ctr ∧
  (∀ d ∈ r.out, ctr ≤ d.curId ∧ d.curId < r.ctr) ∧
  (∀ d ∈ r.out, d.parentId = parent ∨ (ctr ≤ d.parentId ∧ d.parentId < r.ctr)) ∧
  r.count = (directChildren r.out parent).length ∧
  (∀ d ∈ r.out,
    childCountNat d = (directChildren r.out d.curId).length ∧
    (d.child = none ↔ directChildren r.out d.curId = []))

/-- Structural invariant of the sibling loop's result (`outlineGo` with
current node id `curId`, count accumulator `count` and counter `ctr`). -/
def goResultInv (parent curId count ctr : Nat) (r : GoResult) : Prop :=
  ctr ≤ r.ctr ∧
  (∀ d ∈ r.out, (curId ≠ 0 ∧ d.curId = curId) ∨ (ctr ≤ d.curId ∧ d.curId < r.ctr)) ∧
  (∀ d ∈ r.out, d.parentId = parent ∨ (curId ≠ 0 ∧ d.parentId = curId) ∨
    (ctr ≤ d.parentId ∧ d.parentId < r.ctr)) ∧
  r.count = count + (directChildren r.out parent).length ∧
  (∀ d ∈ r.out,
    childCountNat d = (directChildren r.out d.curId).length ∧
    (d.child = none ↔ directChildren r.out d.curId = []))

/-- Outline entries with levels `[1,2,3]` (well nested, three deep). -/
def cexOutlinesA : List OEntry :=
  [{ title := 1, page := 1, x := 0, y := 0, level := 1 },
   { title := 2, page := 2, x := 0, y := 0, level := 2 },
   { title := 3, page := 3, x := 0, y := 0, level := 3 }]

/-- Outline entries with levels `[1,3,2]` (a level is skipped downward). -/
def cexOutlinesB : List OEntry :=
  [{ title := 1, page := 1, x := 0, y := 0, level := 1 },
   { title := 2, page := 2, x := 0, y := 0, level := 3 },
   { title := 3, page := 3, x := 0, y := 0, level := 2 }]

/-- The dictionaries written for `cexOutlinesA` (registry starting at 1). -/
def cexOutA : List ODict := ((flushOutlines cexOutlinesA 1).map Prod.fst).getD []

/-- The dictionaries written for `cexOutlinesB` (registry starting at 1). -/
def cexOutB : List ODict := ((flushOutlines cexOutlinesB 1).map Prod.fst).getD []

/-- Outline entries with levels `[1,2,2,1]` (the spec's example). -/
def ex1221 : List OEntry :=
  [{ title := 1, page := 1, x := 0, y := 0, level := 1 },
   { title := 2, page := 2, x := 0, y := 0, level := 2 },
   { title := 3, page := 3, x := 0, y := 0, level := 2 },
   { title := 4, page := 4, x := 0, y := 0, level := 1 }]

/-- The dictionaries written for `ex1221` (registry starting at 1; write
order: the two level-2 children first, then their parent, then the second
top-level node). -/
def ex1221Out : List ODict :=
  [{ curId := 3, parentId := 2, prevId := 0, nextId := 4, child := none,
     title := 2, page := 2 },
   { curId := 4, parentId := 2, prevId := 3, nextId := 0, child := none,
     title := 3, page := 3 },
   { curId := 2, parentId := 1, prevId := 0, nextId := 5,
     child := some (3, 4, -2), title := 1, page := 1 },
   { curId := 5, parentId := 1, prevId := 2, nextId := 0, child := none,
     title := 4, page := 4 }]

/-- The root `/Outlines` dictionary written for `ex1221`. -/
def ex1221Root : OutlineRoot :=
  { outlineId := 1, firstId := 2, lastId := 5, count := 2 }

/-! ## Renderer state machine (C7, C9, C10)

A trace-recording embedding of the renderer methods that write to the page
content stream.  Every token written to `contentContext` is appended to
`trace`, paired with the number of glyphs pending in `drawn_glyphs` at the
moment the token is written.

External collaborators are parameters (`RParams`): `get_rgb_color`
(decomposition of a `color` into r/g/b/a bytes), the font resolver
(`tt_font_find` succeeding or not) and `font_size` (string parsing of the
font name, done by helpers outside this translation unit).

`renderer_rep::set_clipping` (the base-class bookkeeping of the clip
rectangle) and `outer_round` only massage the clip rectangle coordinates and
are left out: no claim depends on the rectangle values. -/

/-- The glyph data `draw` reads from `fn->get(ch)`: the glyph's `index` and
advance `lwidth` (`none` models a nil glyph). -/
structure GlyphData where
  index : Int
  lwidth : Int
deriving DecidableEq

/-- A token written to the page content stream.  Text-object tokens carry
their arguments; the `bezier_arc` tokens record the arc data in the local
frame of §C5 (the trigonometric control-point values are functions of the
recorded integer angles). -/
inductive Tok where
  | bt : Tok
  | et : Tok
  | tm (a b c d e f : Rat) : Tok
  | td (dx dy : Rat) : Tok
  | tj (items : List TJItem) : Tok
  | tjlow (ch : Int) : Tok
  | tf (fname : String) (size : Rat) : Tok
  | tflow (size : Rat) : Tok
  | strokeCol (r g b : Rat) : Tok
  | fillCol (r g b : Rat) : Tok
  | gsAlpha (a : Int) : Tok
  | widthTok (pw : Int) : Tok
  | mv (x y : Int) : Tok
  | ln (x y : Int) : Tok
  | strokeTok : Tok
  | rect (x y w h : Int) : Tok
  | closeTok : Tok
  | fillTok : Tok
  | save : Tok
  | restore : Tok
  | clipTok : Tok
  | endPath : Tok
  | pageCm : Tok
  | arcScale (x1 y1 x2 y2 : Int) : Tok
  | arcRot (alpha : Int) : Tok
  | arcSegRot (halfUnits : Int) : Tok
  | arcCurve (phi : Int) : Tok
  | arcMove (p : ArcPoint) : Tok
  | arcLine (p : ArcPoint) : Tok
deriving DecidableEq

/-- External collaborators of the renderer. -/
structure RParams where
  getRGB : Int → Int × Int × Int × Int
  fontAvail : String → Bool
  fontSizeOf : String → Rat

/-- The renderer session state (the `pdf_hummus_renderer_rep` fields the
modelled methods read or write), plus the recorded trace. -/
structure RS where
  pixel : Int
  ox : Int
  oy : Int
  inText : Bool
  prevTextX : Rat
  prevTextY : Rat
  drawnGlyphs : List DG
  alphaV : Int
  strokeRgb : Int × Int × Int
  fillRgb : Int × Int × Int
  fg : Int
  bg : Int
  lw : Int
  currentWidth : Int
  cfn : String
  cfid : Bool
  fsize : Rat
  clipLevel : Int
  alphaIds : List (Int × Nat)
  pdfFonts : List String
  t3fonts : List (String × Nat)
  t3used : List (String × Int)
  ctr : Nat
  trace : List (Tok × Nat)
deriving DecidableEq

/-- Write one token to the content stream, recording the size of the pending
glyph buffer at the moment of the write. -/
def emit (t : Tok) (s : RS) : RS :=
  { s with trace := s.trace ++ [(t, s.drawnGlyphs.length)] }

/-- `to_x`: shift by the origin, then divide by `pixel`, rounding toward
negative infinity (the source writes the floor division out with a
truncating division). -/
def toX (s : RS) (x : Int) : Int :=
  let x := x + s.ox
  if 0 ≤ x then x.tdiv s.pixel else (x - s.pixel + 1).tdiv s.pixel

/-- `to_y`, same rounding with the `oy` origin. -/
def toY (s : RS) (y : Int) : Int :=
  let y := y + s.oy
  if 0 ≤ y then y.tdiv s.pixel else (y - s.pixel + 1).tdiv s.pixel

/-- `begin_text`: open a text object (`BT`), reset the text matrix to the
origin and remember it as the previous text position. -/
def beginText (s : RS) : RS :=
  if s.inText then s
  else
    let px : Rat := (toX s 0 : Int)
    let py : Rat := (toY s 0 : Int)
    let s := emit Tok.bt s
    let s := { s with inText := true, prevTextX := px, prevTextY := py }
    emit (Tok.tm 1 0 0 1 px py) s

/-- Emit the `Td`/`TJ` pairs of the batched runs, updating the previous text
position (`bx/pixel` is the source's truncating integer division). -/
def emitRuns (pixel : Int) : List TRun → RS → RS
  | [], s => s
  | r :: rs, s =>
    let nx : Rat := (r.bx.tdiv pixel : Int)
    let ny : Rat := (r.byy.tdiv pixel : Int)
    let s := emit (Tok.td (nx - s.prevTextX) (ny - s.prevTextY)) s
    let s := { s with prevTextX := nx, prevTextY := ny }
    let s := emit (Tok.tj r.items) s
    emitRuns pixel rs s

/-- `draw_glyphs`: batch and write the pending glyph runs, leaving the
buffer empty.  A no-op on an empty buffer. -/
def drawGlyphsOp (s : RS) : RS :=
  if s.drawnGlyphs = [] then s
  else
    let runs := tjRuns s.pixel s.fsize s.drawnGlyphs
    let s := beginText s
    let s := emitRuns s.pixel runs s
    { s with drawnGlyphs := [] }

/-- `end_text`: flush the pending glyph runs and close the text object. -/
def endText (s : RS) : RS :=
  if s.inText then
    let s := drawGlyphsOp s
    let s := emit Tok.et s
    { s with inText := false }
  else s

/-- `select_alpha`: on change, cache an `ExtGState` object id for the
(already 1/1000-quantized) alpha value and emit `gs`. -/
def selectAlpha (a : Int) (s : RS) : RS :=
  if s.alphaV ≠ a then
    let s := { s with alphaV := a }
    let s :=
      if (List.lookup a s.alphaIds).isSome then s
      else { s with alphaIds := s.alphaIds ++ [(a, s.ctr)], ctr := s.ctr + 1 }
    emit (Tok.gsAlpha a) s
  else s

/-- The 8-bit → 1000-unit channel rescaling `(v*1000)/255` (truncating). -/
def scale1000 (v : Int) : Int :=
  (v * 1000).tdiv 255

/-- `select_stroke_color`: rescale the channels, emit `RG` only on a changed
rgb triple, then `select_alpha`. -/
def selectStrokeColor (P : RParams) (c : Int) (s : RS) : RS :=
  let q := P.getRGB c
  let r := scale1000 q.1
  let g := scale1000 q.2.1
  let b := scale1000 q.2.2.1
  let a := scale1000 q.2.2.2
  let s :=
    if s.strokeRgb ≠ (r, g, b) then
      emit (Tok.strokeCol ((r : Rat) / 1000) ((g : Rat) / 1000) ((b : Rat) / 1000))
        { s with strokeRgb := (r, g, b) }
    else s
  selectAlpha a s

/-- `select_fill_color`: as `select_stroke_color`, with `rg`/`fill_rgb`. -/
def selectFillColor (P : RParams) (c : Int) (s : RS) : RS :=
  let q := P.getRGB c
  let r := scale1000 q.1
  let g := scale1000 q.2.1
  let b := scale1000 q.2.2.1
  let a := scale1000 q.2.2.2
  let s :=
    if s.fillRgb ≠ (r, g, b) then
      emit (Tok.fillCol ((r : Rat) / 1000) ((g : Rat) / 1000) ((b : Rat) / 1000))
        { s with fillRgb := (r, g, b) }
    else s
  selectAlpha a s

/-- `select_line_width`: `pw = w / pixel` (truncating integer division in
the source), emit `w` only on change. -/
def selectLineWidth (w : Int) (s : RS) : RS :=
  let pw := w.tdiv s.pixel
  if pw ≠ s.currentWidth then emit (Tok.widthTok pw) { s with currentWidth := pw }
  else s

/-- `set_pencil`: on a changed color, flush the pending glyph run and select
fill and stroke colors; then (unconditionally) take the pencil's width and
select it — the width path does not flush. -/
def rendSetPencil (P : RParams) (c w : Int) (s : RS) : RS :=
  let s :=
    if s.fg ≠ c then
      let s := { s with fg := c }
      let s := drawGlyphsOp s
      let s := selectFillColor P c s
      selectStrokeColor P c s
    else s
  let s := { s with lw := w }
  selectLineWidth w s

/-- `set_background`: record the background brush color. -/
def rendSetBackground (c : Int) (s : RS) : RS :=
  { s with bg := c }

/-- `set_clipping`: end any text object; `restore = true` emits `Q` and
decrements `clip_level` when positive (and resets the current font name);
`restore = false` emits `q`, increments `clip_level` and writes the
rectangle clip path `re W n`. -/
def rendSetClipping (x1 y1 x2 y2 : Int) (restore : Bool) (s : RS) : RS :=
  let s := endText s
  if restore then
    let s := emit Tok.restore s
    let s := if 0 < s.clipLevel then { s with clipLevel := s.clipLevel - 1 } else s
    { s with cfn := "" }
  else
    let s := emit Tok.save s
    let s := { s with clipLevel := s.clipLevel + 1 }
    let xx1 := toX s (min x1 x2)
    let yy1 := toY s (min y1 y2)
    let xx2 := toX s (max x1 x2)
    let yy2 := toY s (max y1 y2)
    let s := emit (Tok.rect xx1 yy1 (xx2 - xx1) (yy2 - yy1)) s
    let s := emit Tok.clipTok s
    emit Tok.endPath s

/-- `line`. -/
def rendLine (x1 y1 x2 y2 : Int) (s : RS) : RS :=
  let s := endText s
  let s := emit (Tok.mv (toX s x1) (toY s y1)) s
  let s := emit (Tok.ln (toX s x2) (toY s y2)) s
  emit Tok.strokeTok s

/-- `lines`: note that `end_text` runs before the length check, exactly as
in the source. -/
def rendLines (xs ys : List Int) (s : RS) : RS :=
  let s := endText s
  if ys.length ≠ xs.length ∨ xs.length < 1 then s
  else
    let s := emit (Tok.mv (toX s (xs.headD 0)) (toY s (ys.headD 0))) s
    let s := (List.zip xs.tail ys.tail).foldl
      (fun s p => emit (Tok.ln (toX s p.1) (toY s p.2)) s) s
    emit Tok.strokeTok s

/-- `clear`: always emits (inside a `q … Q` bracket) a background-filled
rectangle, restoring the fill color to the pen color afterwards. -/
def rendClear (P : RParams) (x1 y1 x2 y2 : Int) (s : RS) : RS :=
  let s := endText s
  let xx1 := toX s (min x1 x2)
  let yy1 := toY s (min y1 y2)
  let xx2 := toX s (max x1 x2)
  let yy2 := toY s (max y1 y2)
  let s := emit Tok.save s
  let s := selectFillColor P s.bg s
  let s := emit (Tok.rect xx1 yy1 (xx2 - xx1) (yy2 - yy1)) s
  let s := emit Tok.closeTok s
  let s := emit Tok.fillTok s
  let s := selectFillColor P s.fg s
  emit Tok.restore s

/-- `fill`: emits the rectangle only under `x1 < x2 && y1 < y2`; otherwise
the call returns before doing anything at all. -/
def rendFill (x1 y1 x2 y2 : Int) (s : RS) : RS :=
  if x1 < x2 ∧ y1 < y2 then
    let s := endText s
    let xx1 := toX s (min x1 x2)
    let yy1 := toY s (min y1 y2)
    let xx2 := toX s (max x1 x2)
    let yy2 := toY s (max y1 y2)
    let s := emit (Tok.rect xx1 yy1 (xx2 - xx1) (yy2 - yy1)) s
    let s := emit Tok.closeTok s
    emit Tok.fillTok s
  else s

/-- `polygon`: same degenerate-input check as `lines`, closing and filling
the path. -/
def rendPolygon (xs ys : List Int) (s : RS) : RS :=
  let s := endText s
  if ys.length ≠ xs.length ∨ xs.length < 1 then s
  else
    let s := emit (Tok.mv (toX s (xs.headD 0)) (toY s (ys.headD 0))) s
    let s := (List.zip xs.tail ys.tail).foldl
      (fun s p => emit (Tok.ln (toX s p.1) (toY s p.2)) s) s
    let s := emit Tok.closeTok s
    emit Tok.fillTok s

/-- Emit the per-segment rotation and cubic operator of each arc segment. -/
def emitArcSegs (segs : List ArcSeg) (s : RS) : RS :=
  segs.foldl (fun s seg => emit (Tok.arcCurve seg.phi) (emit (Tok.arcSegRot seg.frameRot) s)) s

/-- `bezier_arc`: save, scale/center `cm`, optional `alpha` rotation `cm`,
the initial `m` (and `l` for an open arc), the segment loop, `h`, restore. -/
def rendBezierArc (x1 y1 x2 y2 alpha delta : Int) (s : RS) : RS :=
  let s := emit Tok.save s
  let s := emit (Tok.arcScale (toX s x1) (toY s y1) (toX s x2) (toY s y2)) s
  let s := if alpha ≠ 0 then emit (Tok.arcRot alpha) s else s
  let s :=
    if delta = 23040 then emit (Tok.arcMove (ArcPoint.circ 0)) s
    else emit (Tok.arcLine (ArcPoint.circ 0)) (emit (Tok.arcMove ArcPoint.center) s)
  let s := emitArcSegs (arcSegs delta 0 0) s
  let s := emit Tok.closeTok s
  emit Tok.restore s

/-- `arc`: `end_text`, the Bezier path, stroke. -/
def rendArc (x1 y1 x2 y2 alpha delta : Int) (s : RS) : RS :=
  let s := endText s
  let s := rendBezierArc x1 y1 x2 y2 alpha delta s
  emit Tok.strokeTok s

/-- `fill_arc`: `end_text`, the Bezier path, fill. -/
def rendFillArc (x1 y1 x2 y2 alpha delta : Int) (s : RS) : RS :=
  let s := endText s
  let s := rendBezierArc x1 y1 x2 y2 alpha delta s
  emit Tok.fillTok s

/-- The font-resolution block of `draw` for an unseen font name: consult
the loaded-font cache, the Type 3 cache, then the external resolver
(`make_pdf_font` / `tt_font_find`); a still-unresolved font gets a fresh
Type 3 record with a newly allocated font object id. -/
def fontResolve (P : RParams) (fname : String) (s : RS) : RS :=
  if fname ∈ s.pdfFonts then s
  else if (List.lookup fname s.t3fonts).isSome then s
  else
    let s1 := if P.fontAvail fname then { s with pdfFonts := s.pdfFonts ++ [fname] } else s
    if fname ∈ s1.pdfFonts then s1
    else { s1 with t3fonts := s1.t3fonts ++ [(fname, s1.ctr)], ctr := s1.ctr + 1 }

/-- The font-change prologue of `draw` (`if (cfn != fontname) …`): resolve
the font, flush the pending glyph run, record the new current font and emit
`Tf` (outline font) or the low-level `Tf` at conventional size 100
(Type 3 font). -/
def fontSelect (P : RParams) (fname : String) (s : RS) : RS :=
  if s.cfn ≠ fname then
    let s := fontResolve P fname s
    let s := beginText s
    let s := drawGlyphsOp s
    let s := { s with cfn := fname, fsize := P.fontSizeOf fname }
    if fname ∈ s.pdfFonts then emit (Tok.tf fname s.fsize) { s with cfid := true }
    else emit (Tok.tflow 100) { s with cfid := false }
  else s

/-- `draw`: nil glyphs are skipped; a font change resolves the font (loading
an outline font via the resolver, else creating/reusing a Type 3 font),
flushes the pending run and emits `Tf`/`Tf`-low; then an outline-font glyph
is buffered while a Type 3 glyph is placed immediately with `Td`/`Tj`-low
and recorded as used. -/
def rendDraw (P : RParams) (fname : String) (ch : Int) (g : Option GlyphData)
    (x y : Int) (s : RS) : RS :=
  match g with
  | none => s
  | some gl =>
    let s := fontSelect P fname s
    if s.cfid then
      let s := beginText s
      { s with drawnGlyphs :=
          s.drawnGlyphs ++ [{ x := s.ox + x, y := s.oy + y, ch := ch,
                              index := gl.index, lwidth := gl.lwidth }] }
    else
      let s := beginText s
      let nx : Rat := (toX s x : Int)
      let ny : Rat := (toY s y : Int)
      let s := emit (Tok.td (nx - s.prevTextX) (ny - s.prevTextY)) s
      let s := { s with prevTextX := nx, prevTextY := ny }
      let s := { s with t3used := s.t3used ++ [(fname, ch)] }
      emit (Tok.tjlow ch) s

/-- The renderer calls the machine models. -/
inductive ROp where
  | draw (fname : String) (ch : Int) (g : Option GlyphData) (x y : Int) : ROp
  | setPencil (c w : Int) : ROp
  | setBackground (c : Int) : ROp
  | setClipping (x1 y1 x2 y2 : Int) (restore : Bool) : ROp
  | line (x1 y1 x2 y2 : Int) : ROp
  | lines (xs ys : List Int) : ROp
  | clear (x1 y1 x2 y2 : Int) : ROp
  | fill (x1 y1 x2 y2 : Int) : ROp
  | polygon (xs ys : List Int) : ROp
  | arc (x1 y1 x2 y2 alpha delta : Int) : ROp
  | fillArc (x1 y1 x2 y2 alpha delta : Int) : ROp
deriving DecidableEq

/-- Dispatch one renderer call. -/
def stepOp (P : RParams) (s : RS) : ROp → RS
  | ROp.draw fname ch g x y => rendDraw P fname ch g x y s
  | ROp.setPencil c w => rendSetPencil P c w s
  | ROp.setBackground c => rendSetBackground c s
  | ROp.setClipping x1 y1 x2 y2 r => rendSetClipping x1 y1 x2 y2 r s
  | ROp.line x1 y1 x2 y2 => rendLine x1 y1 x2 y2 s
  | ROp.lines xs ys => rendLines xs ys s
  | ROp.clear x1 y1 x2 y2 => rendClear P x1 y1 x2 y2 s
  | ROp.fill x1 y1 x2 y2 => rendFill x1 y1 x2 y2 s
  | ROp.polygon xs ys => rendPolygon xs ys s
  | ROp.arc x1 y1 x2 y2 a d => rendArc x1 y1 x2 y2 a d s
  | ROp.fillArc x1 y1 x2 y2 a d => rendFillArc x1 y1 x2 y2 a d s

/-- Run a sequence of renderer calls. -/
def runOps (P : RParams) (ops : List ROp) (s : RS) : RS :=
  ops.foldl (stepOp P) s

/-- The state `begin_page` leaves behind (page-local fields reset, the
outermost `q`, the dpi-scaling `cm`, and the full-page clip push), starting
from an empty trace. -/
def initRS (pixel ox oy pw ph : Int) : RS :=
  let s : RS :=
    { pixel := pixel, ox := ox, oy := oy, inText := false,
      prevTextX := 0, prevTextY := 0, drawnGlyphs := [],
      alphaV := 255, strokeRgb := (-1, -1, -1), fillRgb := (-1, -1, -1),
      fg := -1, bg := -1, lw := -1, currentWidth := -1,
      cfn := "", cfid := false, fsize := 10, clipLevel := 0,
      alphaIds := [], pdfFonts := [], t3fonts := [], t3used := [],
      ctr := 1, trace := [] }
  let s := emit Tok.save s
  let s := emit Tok.pageCm s
  rendSetClipping 0 (-ph) pw 0 false s

/-- A concrete instantiation of the external collaborators, for concrete
runs: a grayscale color decomposition, an always-succeeding font resolver
and a fixed font size. -/
def exParams : RParams :=
  { getRGB := fun c => (c, c, c, 255), fontAvail := fun _ => true,
    fontSizeOf := fun _ => 10 }

/-- A concrete reachable state with one glyph pending in the buffer: pencil
set, then one outline-font glyph drawn. -/
def exDrawState : RS :=
  runOps exParams
    [ROp.setPencil 5 32, ROp.draw "f" 65 (some { index := 1, lwidth := 2 }) 0 0]
    (initRS 16 0 0 1000 1000)

/-- Token classification for the flush-before-state-change property:
the graphics state-change and path/shape tokens (everything except the
text-object tokens `BT ET Tm Td TJ Tj Tf`). -/
def isStateOrShape : Tok → Bool
  | Tok.bt | Tok.et | Tok.tm _ _ _ _ _ _ | Tok.td _ _ | Tok.tj _
  | Tok.tjlow _ | Tok.tf _ _ | Tok.tflow _ => false
  | _ => true

/-- The same class without the line-width token `w`. -/
def isStateOrShapeNoWidth (t : Tok) : Bool :=
  match t with
  | Tok.widthTok _ => false
  | _ => isStateOrShape t

/-- The trace property of claim C7: every recorded state-change or shape
token was written with an empty pending glyph buffer. -/
def flushedTrace (s : RS) : Prop :=
  ∀ p ∈ s.trace, isStateOrShape p.1 = true → p.2 = 0

/-- The weakened trace property (the `w` token exempted). -/
def flushedTraceNoWidth (s : RS) : Prop :=
  ∀ p ∈ s.trace, isStateOrShapeNoWidth p.1 = true → p.2 = 0

/-- Buffer hygiene: outside a text object the glyph buffer is empty (the
buffer is only filled under `begin_text`, and `end_text` flushes it). -/
def bufInv (s : RS) : Prop :=
  s.inText = false → s.drawnGlyphs = []

/-- The renderer state components that closing a text object never touches:
everything except the text-object state (`inText`, the previous text
position), the pending glyph buffer and the trace. -/
def coreState (s : RS) :
    (Int × Int × Int) × Int × (Int × Int × Int) × (Int × Int × Int) ×
    (Int × Int × Int × Int) × (String × Bool × Rat) × Int ×
    (List (Int × Nat) × List String × List (String × Nat) × List (String × Int)) × Nat :=
  ((s.pixel, s.ox, s.oy), s.alphaV, s.strokeRgb, s.fillRgb,
   (s.fg, s.bg, s.lw, s.currentWidth), (s.cfn, s.cfid, s.fsize), s.clipLevel,
   (s.alphaIds, s.pdfFonts, s.t3fonts, s.t3used), s.ctr)

/-- The trace of `s2` extends the trace of `s` by text-object tokens only. -/
def textTraceExt (s s2 : RS) : Prop :=
  ∃ t, s2.trace = s.trace ++ t ∧ ∀ p ∈ t, isStateOrShape p.1 = false

/-- `s2` extends `s` by text-object output only: the core state is
untouched and the trace grows by text-object tokens alone. -/
def textExt (s s2 : RS) : Prop :=
  coreState s2 = coreState s ∧ textTraceExt s s2

/-! # Theorems -/

/-! ## C1 -/

theorem clipFold_fst (ops : List Bool) : ∀ (l : Int) (e : Nat),
    (ops.foldl clipPairStep (l, e)).1 = ops.foldl clipStep l := by
  induction ops with
  | nil => intro l e; rfl
  | cons b t ih =>
    intro l e
    rcases b <;> by_cases h : 0 < l <;>
      simp [List.foldl_cons, clipPairStep, clipStep, h, ih]

theorem clipFold_key (ops : List Bool) : ∀ (l : Int) (e : Nat), 0 ≤ l →
    0 ≤ (ops.foldl clipPairStep (l, e)).1 ∧
    (ops.foldl clipPairStep (l, e)).1 + ((ops.foldl clipPairStep (l, e)).2 : Int)
      = l + (e : Int) + ((ops.filter (fun r => !r)).length : Int) := by
  induction ops with
  | nil => intro l e hl; simpa using hl
  | cons b t ih =>
    intro l e hl
    rcases b
    · obtain ⟨h1, h2⟩ := ih (l + 1) e (by omega)
      simp [List.foldl_cons, clipPairStep]
      exact ⟨h1, by omega⟩
    · by_cases h0 : 0 < l
      · obtain ⟨h1, h2⟩ := ih (l - 1) (e + 1) (by omega)
        simp [List.foldl_cons, clipPairStep, h0]
        exact ⟨h1, by omega⟩
      · obtain ⟨h1, h2⟩ := ih l e hl
        simp [List.foldl_cons, clipPairStep, h0]
        exact ⟨h1, by omega⟩

/-- C1: for every sequence of `set_clipping` push (`restore = false`) and
restore (`restore = true`) calls within one page, (i) the tracked clip-stack
depth never becomes negative — in particular a restore at depth 0 leaves the
depth at 0; (ii) the depth equals the number of pushed `q` tokens not yet
balanced by a level-popping `Q`; (iii) every `q` emitted by a clip push is
balanced by a `Q` before the content stream ends — by a restore that popped
its level or by one of the `Q`s of `end_page`'s `while (clip_level--)`
loop; and (iv) the depth after `end_page`'s loop is 0, the depth at page
open. -/
theorem clip_stack_balanced (ops : List Bool) :
    (∀ n, 0 ≤ clipRun (ops.take n)) ∧
    clipRun ops = (clipQCount ops : Int) - ((clipFold ops).2 : Int) ∧
    (clipQCount ops : Int) = ((clipFold ops).2 : Int) + (endPageQCount ops : Int) ∧
    clipRun ops - (endPageQCount ops : Int) = 0 := by
  have key : ∀ l : List Bool, 0 ≤ clipRun l ∧
      clipRun l + ((clipFold l).2 : Int) = ((l.filter (fun r => !r)).length : Int) := by
    intro l
    obtain ⟨h1, h2⟩ := clipFold_key l 0 0 le_rfl
    rw [clipFold_fst l 0 0] at h1 h2
    rw [show clipFold l = l.foldl clipPairStep (0, 0) from rfl,
      show clipRun l = l.foldl clipStep 0 from rfl]
    exact ⟨h1, by omega⟩
  have hnn : ∀ n, 0 ≤ clipRun (ops.take n) := fun n => (key (ops.take n)).1
  have h := key ops
  have hq : (clipQCount ops : Int) = ((ops.filter (fun r => !r)).length : Int) := rfl
  have hend : (endPageQCount ops : Int) = clipRun ops := by
    simp only [endPageQCount]
    omega
  refine ⟨hnn, by omega, by omega, by omega⟩

/-! ## C4 -/

/-- C4: flushing a synthetic (Type 3) font whose set of used character codes
is {65, 66, 70} writes FirstChar 65, LastChar 70, a Widths array of length 6
whose entries at the unused codes 67, 68, 69 are zero and whose entries at
used codes are the glyphs' declared advance widths, and an
encoding-differences list with exactly one contiguity break, between codes
66 and 70 — the differences list is `[65 /ch65 /ch66 70 /ch70]`, whose only
code marker beyond the mandatory leading first-char restarts the run at 70
after 66.  The result depends only on the set of used codes, not on their
recording order. -/
theorem t3_flush_65_66_70 (fn : Nat → T3Glyph) (ctr : Nat) :
    (t3WriteDefinition fn [65, 66, 70] ctr).firstchar = 65 ∧
    (t3WriteDefinition fn [65, 66, 70] ctr).lastchar = 70 ∧
    (t3WriteDefinition fn [65, 66, 70] ctr).widths
      = [(fn 65).lwidth, (fn 66).lwidth, 0, 0, 0, (fn 70).lwidth] ∧
    (t3WriteDefinition fn [65, 66, 70] ctr).widths.length = 6 ∧
    (t3WriteDefinition fn [65, 66, 70] ctr).diffs
      = [DiffTok.code 65, DiffTok.glyphName 65, DiffTok.glyphName 66,
         DiffTok.code 70, DiffTok.glyphName 70] ∧
    ((t3WriteDefinition fn [65, 66, 70] ctr).diffs.filter DiffTok.isCode).length = 2 ∧
    t3WriteDefinition fn [70, 66, 65] ctr = t3WriteDefinition fn [65, 66, 70] ctr :=
  ⟨rfl, rfl, rfl, rfl, rfl, rfl, rfl⟩

/-! ## C5 -/

/-- C5 counterexample: with angular arguments in the spec's
hundredths-of-a-degree unit, a full-circle delta is 36000.  `bezier_arc`
then does not even take its closed-circle branch (the code tests
`delta == 360*64 = 23040`): the path starts at the center with an open-arc
`m(0,0); l(1,0)`, runs for 7 cubic segments (not 4), and its final point is
the unit-circle point at `2*36000` half-units ≡ 202.5°, which coincides
neither with the path's first point (the center) nor with the unit-circle
point the drawn arc started from — the path is not closed by its segments.
The code's unit is 1/64 degree, not hundredths of a degree. -/
theorem bezier_arc_hundredths_cex :
    arcFirstPoint 36000 = ArcPoint.center ∧
    ¬ arcPointEq (arcFirstPoint 36000) (arcFinalPoint 36000) ∧
    ¬ arcPointEq (ArcPoint.circ 0) (arcFinalPoint 36000) ∧
    (arcSegs 36000 0 0).length = 7 := by
  decide

theorem arcSegsF_phi_bounds : ∀ (fuel : Nat) (delta prevPhi accRot : Int),
    ∀ seg ∈ arcSegsF fuel delta prevPhi accRot, 0 < seg.phi ∧ seg.phi ≤ 5760 := by
  intro fuel
  induction fuel with
  | zero => intro delta prevPhi accRot seg h; simp [arcSegsF] at h
  | succ n ih =>
    intro delta prevPhi accRot seg h
    simp only [arcSegsF] at h
    by_cases hd : 0 < delta
    · rw [if_pos hd] at h
      rcases List.mem_cons.mp h with h1 | h1
      · subst h1
        refine ⟨lt_min hd (by norm_num), min_le_right _ _⟩
      · exact ih _ _ _ seg h1
    · rw [if_neg hd] at h
      simp at h

/-- C5 (amended): with angular arguments in the code's fixed-point unit of
1/64 degree, the arc decomposition produces, for the full-circle delta
`360*64`, a path that starts at the unit-circle point of angle 0 and whose
final point coincides with that first point exactly (the accumulated
endpoint angle is one full turn); a 45-degree open-arc delta (`45*64`)
yields exactly one cubic segment; and every emitted segment spans a positive
angle of at most 90 degrees (`90*64` units), its control points being the
closed-form unit-circle values for that span. -/
theorem bezier_arc_amended :
    (arcFirstPoint 23040 = ArcPoint.circ 0 ∧
     arcPointEq (arcFirstPoint 23040) (arcFinalPoint 23040) ∧
     (arcSegs 23040 0 0).length = 4) ∧
    (arcSegs 2880 0 0).length = 1 ∧
    (∀ delta prevPhi accRot : Int, ∀ seg ∈ arcSegs delta prevPhi accRot,
       0 < seg.phi ∧ seg.phi ≤ 5760) := by
  refine ⟨by decide, by decide, ?_⟩
  intro delta prevPhi accRot seg h
  exact arcSegsF_phi_bounds _ _ _ _ seg h

/-- Witness for `bezier_arc_amended` at a concrete segment of the
full-circle decomposition. -/
theorem bezier_arc_amended_witness :
    0 < ({ phi := 5760, frameRot := 5760 } : ArcSeg).phi ∧
    ({ phi := 5760, frameRot := 5760 } : ArcSeg).phi ≤ 5760 :=
  bezier_arc_amended.2.2 23040 0 0 { phi := 5760, frameRot := 5760 } (by decide)

/-! ## C6 -/

theorem lookup_append {α β : Type} [BEq α] [LawfulBEq α] (k : α) (l1 l2 : List (α × β)) :
    List.lookup k (l1 ++ l2) = (List.lookup k l1).or (List.lookup k l2) := by
  induction l1 with
  | nil => simp [List.lookup]
  | cons p t ih =>
    rcases p with ⟨a, b⟩
    by_cases h : k = a
    · subst h; simp [List.lookup]
    · simp only [List.cons_append, List.lookup, beq_false_of_ne h, List.append_eq, ih]

theorem lookup_some_mem {α β : Type} [BEq α] [LawfulBEq α] {k : α} {v : β} :
    ∀ {l : List (α × β)}, List.lookup k l = some v → (k, v) ∈ l := by
  intro l
  induction l with
  | nil => intro h; simp [List.lookup] at h
  | cons p t ih =>
    rcases p with ⟨a, b⟩
    by_cases h : k = a
    · subst h
      intro hv
      simp [List.lookup] at hv
      subst hv
      exact List.mem_cons_self _ _
    · intro hv
      rw [List.lookup, beq_false_of_ne h] at hv
      exact List.mem_cons_of_mem _ (ih hv)

theorem lookup_isSome_iff {α β : Type} [BEq α] [LawfulBEq α] (k : α) :
    ∀ (l : List (α × β)), (List.lookup k l).isSome ↔ k ∈ l.map Prod.fst := by
  intro l
  induction l with
  | nil => simp [List.lookup]
  | cons p t ih =>
    rcases p with ⟨a, b⟩
    by_cases h : k = a
    · subst h; simp [List.lookup]
    · simp [List.lookup, beq_false_of_ne h, ih, h]

theorem imageStep_mem (s : ImgState) (a k : Nat) :
    (imgId (imageStep s a).1 k).isSome ↔ (imgId s k).isSome ∨ k = a := by
  unfold imageStep imgId
  cases h : List.lookup a s.pool with
  | some i =>
    simp only [h]
    constructor
    · exact Or.inl
    · rintro (hk | rfl)
      · exact hk
      · simp [h]
  | none =>
    simp only [h, lookup_append]
    by_cases hk : k = a
    · subst hk; simp [List.lookup]
    · simp [List.lookup, beq_false_of_ne hk, hk]

theorem runImages_mem (ks : List Nat) : ∀ (s : ImgState) (k : Nat),
    (imgId (runImages ks s) k).isSome ↔ (imgId s k).isSome ∨ k ∈ ks := by
  induction ks with
  | nil => intro s k; simp [runImages]
  | cons a t ih =>
    intro s k
    have step : runImages (a :: t) s = runImages t (imageStep s a).1 := rfl
    rw [step, ih, imageStep_mem]
    simp [List.mem_cons]
    tauto

theorem imageStep_inv (s : ImgState) (k : Nat)
    (h1 : ∀ p ∈ s.pool, p.2 < s.ctr)
    (h2 : (s.pool.map Prod.snd).Nodup)
    (h3 : (s.pool.map Prod.fst).Nodup) :
    (∀ p ∈ (imageStep s k).1.pool, p.2 < (imageStep s k).1.ctr) ∧
    ((imageStep s k).1.pool.map Prod.snd).Nodup ∧
    ((imageStep s k).1.pool.map Prod.fst).Nodup := by
  unfold imageStep
  cases h : List.lookup k s.pool with
  | some i => exact ⟨h1, h2, h3⟩
  | none =>
    simp only [h]
    refine ⟨?_, ?_, ?_⟩
    · intro p hp
      have hp2 : p ∈ s.pool ++ [(k, s.ctr)] := hp
      show p.2 < s.ctr + 1
      rcases List.mem_append.mp hp2 with hp3 | hp3
      · have := h1 p hp3; omega
      · rcases List.mem_singleton.mp hp3 with rfl
        show s.ctr < s.ctr + 1
        omega
    · rw [List.map_append, List.nodup_append]
      refine ⟨h2, by simp, ?_⟩
      intro x hx
      simp only [List.map_cons, List.map_nil, List.mem_singleton]
      rcases List.mem_map.mp hx with ⟨p, hp, rfl⟩
      have := h1 p hp
      omega
    · rw [List.map_append, List.nodup_append]
      refine ⟨h3, by simp, ?_⟩
      intro x hx
      simp only [List.map_cons, List.map_nil, List.mem_singleton]
      intro hxk
      rw [hxk] at hx
      have hS : (List.lookup k s.pool).isSome := (lookup_isSome_iff k s.pool).mpr hx
      rw [h] at hS
      simp at hS

theorem runImages_inv (ks : List Nat) : ∀ (s : ImgState),
    (∀ p ∈ s.pool, p.2 < s.ctr) → (s.pool.map Prod.snd).Nodup →
    (s.pool.map Prod.fst).Nodup →
    (∀ p ∈ (runImages ks s).pool, p.2 < (runImages ks s).ctr) ∧
    ((runImages ks s).pool.map Prod.snd).Nodup ∧
    ((runImages ks s).pool.map Prod.fst).Nodup := by
  induction ks with
  | nil => intro s h1 h2 h3; exact ⟨h1, h2, h3⟩
  | cons a t ih =>
    intro s h1 h2 h3
    have step : runImages (a :: t) s = runImages t (imageStep s a).1 := rfl
    obtain ⟨g1, g2, g3⟩ := imageStep_inv s a h1 h2 h3
    rw [step]
    exact ih _ g1 g2 g3

/-- C6: in one document, (i) placing an image with the same source key twice
reuses the pool entry — the second placement changes nothing and returns the
same object id; (ii) two distinct source keys placed in a document never
share an object id; (iii) a source key owns an embedded resource iff it was
placed, so the set of embedded image resources depends only on the set of
distinct placed sources — in particular two placement orders with the same
source set embed the same sources. -/
theorem image_pool_dedup (ks ks2 : List Nat) (k k1 k2 : Nat) :
    ((imageStep (imageStep imgInit k).1 k).1 = (imageStep imgInit k).1 ∧
     (imageStep (imageStep imgInit k).1 k).2 = (imageStep imgInit k).2 ∧
     ∀ s : ImgState, (imageStep (imageStep s k).1 k).1 = (imageStep s k).1 ∧
       (imageStep (imageStep s k).1 k).2 = (imageStep s k).2) ∧
    (k1 ≠ k2 → k1 ∈ ks → k2 ∈ ks →
       imgId (runImages ks imgInit) k1 ≠ imgId (runImages ks imgInit) k2) ∧
    ((imgId (runImages ks imgInit) k).isSome ↔ k ∈ ks) ∧
    ((∀ a, a ∈ ks ↔ a ∈ ks2) →
       ∀ a, ((imgId (runImages ks imgInit) a).isSome ↔
             (imgId (runImages ks2 imgInit) a).isSome)) := by
  have idem : ∀ s : ImgState, (imageStep (imageStep s k).1 k).1 = (imageStep s k).1 ∧
      (imageStep (imageStep s k).1 k).2 = (imageStep s k).2 := by
    intro s
    unfold imageStep
    cases h : List.lookup k s.pool with
    | some i => simp [h]
    | none => simp [h, lookup_append, List.lookup]
  refine ⟨⟨idem imgInit |>.1, (idem imgInit).2, idem⟩, ?_, ?_, ?_⟩
  · intro hne h1 h2
    obtain ⟨g1, g2, g3⟩ := runImages_inv ks imgInit (by simp [imgInit]) (by simp [imgInit])
      (by simp [imgInit])
    have m1 : (imgId (runImages ks imgInit) k1).isSome := by
      rw [runImages_mem]; right; exact h1
    have m2 : (imgId (runImages ks imgInit) k2).isSome := by
      rw [runImages_mem]; right; exact h2
    obtain ⟨i1, hi1⟩ := Option.isSome_iff_exists.mp m1
    obtain ⟨i2, hi2⟩ := Option.isSome_iff_exists.mp m2
    rw [hi1, hi2]
    intro hcontra
    have hii : i1 = i2 := by simpa using hcontra
    subst hii
    have p1 := lookup_some_mem (l := (runImages ks imgInit).pool) hi1
    have p2 := lookup_some_mem (l := (runImages ks imgInit).pool) hi2
    have := List.inj_on_of_nodup_map g2 p1 p2 rfl
    simp at this
    exact hne this
  · rw [runImages_mem]
    simp [imgId, imgInit, List.lookup]
  · intro hset a
    rw [runImages_mem, runImages_mem]
    simp [imgId, imgInit, List.lookup, hset a]

/-- Witness for `image_pool_dedup`: keys 3 and 5 placed as `[3, 5, 3]`. -/
theorem image_pool_dedup_witness :
    imgId (runImages [3, 5, 3] imgInit) 3 ≠ imgId (runImages [3, 5, 3] imgInit) 5 ∧
    ((imgId (runImages [3, 5, 3] imgInit) 3).isSome ↔ 3 ∈ [3, 5, 3]) ∧
    ∀ a, ((imgId (runImages [3, 5, 3] imgInit) a).isSome ↔
          (imgId (runImages [5, 3] imgInit) a).isSome) :=
  ⟨(image_pool_dedup [3, 5, 3] [5, 3] 3 3 5).2.1 (by decide) (by decide) (by decide),
   (image_pool_dedup [3, 5, 3] [5, 3] 3 3 5).2.2.1,
   (image_pool_dedup [3, 5, 3] [5, 3] 3 3 5).2.2.2
     (by intro a; simp [List.mem_cons]; tauto)⟩

/-! ## C8 -/

theorem getLabelId_hit (s : LabState) (l : List Nat) (i : Nat)
    (h : List.lookup l s.labelId = some i) : getLabelId s l = (s, i) := by
  unfold getLabelId
  rw [h]

theorem getLabelId_binds (s : LabState) (l : List Nat) :
    List.lookup l (getLabelId s l).1.labelId = some (getLabelId s l).2 := by
  unfold getLabelId
  cases h : List.lookup l s.labelId with
  | some i => simpa using h
  | none => simp [h, lookup_append, List.lookup]

theorem getLabelId_stable (s : LabState) (l l2 : List Nat) (i : Nat)
    (h : List.lookup l s.labelId = some i) :
    List.lookup l (getLabelId s l2).1.labelId = some i := by
  unfold getLabelId
  cases h2 : List.lookup l2 s.labelId with
  | some j => simpa using h
  | none => simp [h2, lookup_append, h]

theorem flushFold_stable (es : List (List Nat × Nat × Int × Int)) :
    ∀ (p : LabState × List (Nat × Nat × Int × Int)) (l : List Nat) (i : Nat),
    List.lookup l p.1.labelId = some i →
    List.lookup l (es.foldl flushDestStep p).1.labelId = some i := by
  induction es with
  | nil => intro p l i h; exact h
  | cons e t ih =>
    intro p l i h
    simp only [List.foldl_cons]
    exact ih _ l i (getLabelId_stable p.1 l e.1 i h)

theorem getLabelId_range (s : LabState) (l : List Nat)
    (h : s.labelId.map Prod.snd = List.range s.labelCount) :
    (getLabelId s l).1.labelId.map Prod.snd
      = List.range (getLabelId s l).1.labelCount := by
  unfold getLabelId
  cases h2 : List.lookup l s.labelId with
  | some i => simpa using h
  | none => simp [h2, h, List.range_succ]

theorem runLabels_range (ls : List (List Nat)) : ∀ (s : LabState),
    s.labelId.map Prod.snd = List.range s.labelCount →
    (runLabels ls s).labelId.map Prod.snd = List.range (runLabels ls s).labelCount := by
  induction ls with
  | nil => intro s h; exact h
  | cons l t ih =>
    intro s h
    have step : runLabels (l :: t) s = runLabels t (getLabelId s l).1 := rfl
    rw [step]
    exact ih _ (getLabelId_range s l h)

/-- C8: (i) starting from the empty label map, the assigned label ids are
the dense integers `0, 1, 2, …` in first-use order (the stored ids, in
insertion order, are exactly `range label_count`); (ii) the first reference
to a fresh label is assigned the next id `label_count`, and a repeated
reference returns the same id without changing the map; (iii) anchoring the
same label twice and writing a hyperlink to it produces one shared id: the
hyperlink annotation names the id `i` and `flush_dests` writes both
destination entries under that same `i`. -/
theorem label_id_dense_shared (ls : List (List Nat)) (lbl : List Nat) (d : DocState)
    (p1 p2 : Nat) (x1 y1 x2 y2 : Int) :
    ((runLabels ls labInit).labelId.map Prod.snd
       = List.range (runLabels ls labInit).labelCount) ∧
    (∀ s : LabState, List.lookup lbl s.labelId = none →
       (getLabelId s lbl).2 = s.labelCount) ∧
    (∀ s : LabState, getLabelId (getLabelId s lbl).1 lbl = ((getLabelId s lbl).1, (getLabelId s lbl).2)) ∧
    (lbl.head? = some 35 →
      ∃ i pre,
        (hrefOp (anchorOp (anchorOp d lbl p1 x1 y1) lbl p2 x2 y2) lbl).annots
          = d.annots ++ [some i] ∧
        (flushDests (hrefOp (anchorOp (anchorOp d lbl p1 x1 y1) lbl p2 x2 y2) lbl)).2
          = pre ++ [(i, p1, x1, y1), (i, p2, x2, y2)]) := by
  refine ⟨runLabels_range ls _ (by simp [labInit]), ?_, ?_, ?_⟩
  · intro s h
    unfold getLabelId
    rw [h]
  · intro s
    exact getLabelId_hit _ _ _ (getLabelId_binds s lbl)
  · intro h35
    set L := prepareText lbl with hLdef
    set r0 := getLabelId d.lab L with hr0
    set dd := hrefOp (anchorOp (anchorOp d lbl p1 x1 y1) lbl p2 x2 y2) lbl with hdd
    have hlab : dd.lab = r0.1 := by
      simp [hdd, hrefOp, anchorOp, h35, hr0]
    have hdests : dd.dests = d.dests ++ [(L, p1, x1, y1), (L, p2, x2, y2)] := by
      simp [hdd, hrefOp, anchorOp, h35, hLdef]
    have hannots : dd.annots = d.annots ++ [some r0.2] := by
      simp [hdd, hrefOp, anchorOp, h35, hr0]
    set FF := d.dests.foldl flushDestStep (r0.1, []) with hFF
    have hbind : List.lookup L FF.1.labelId = some r0.2 := by
      apply flushFold_stable
      show List.lookup L (getLabelId d.lab L).1.labelId = some (getLabelId d.lab L).2
      exact getLabelId_binds d.lab L
    refine ⟨r0.2, FF.2, hannots, ?_⟩
    show (dd.dests.foldl flushDestStep (dd.lab, [])).2 = _
    rw [hdests, hlab, List.foldl_append]
    rw [← hFF]
    have step1 : flushDestStep FF (L, p1, x1, y1)
        = (FF.1, FF.2 ++ [(r0.2, p1, x1, y1)]) := by
      unfold flushDestStep
      rw [getLabelId_hit FF.1 L r0.2 hbind]
    simp only [List.foldl_cons, List.foldl_nil, step1]
    have step2 : flushDestStep (FF.1, FF.2 ++ [(r0.2, p1, x1, y1)]) (L, p2, x2, y2)
        = (FF.1, FF.2 ++ [(r0.2, p1, x1, y1)] ++ [(r0.2, p2, x2, y2)]) := by
      unfold flushDestStep
      rw [getLabelId_hit FF.1 L r0.2 hbind]
    rw [step2]
    simp

/-- Witness for `label_id_dense_shared` at the label "#a" (bytes 35, 97)
from an empty document. -/
theorem label_id_dense_shared_witness :
    (getLabelId labInit [35, 97]).2 = labInit.labelCount ∧
    (∃ i pre,
      (hrefOp (anchorOp (anchorOp docInit [35, 97] 0 1 2) [35, 97] 1 3 4) [35, 97]).annots
        = docInit.annots ++ [some i] ∧
      (flushDests (hrefOp (anchorOp (anchorOp docInit [35, 97] 0 1 2) [35, 97] 1 3 4)
          [35, 97])).2
        = pre ++ [(i, 0, 1, 2), (i, 1, 3, 4)]) :=
  ⟨(label_id_dense_shared [] [35, 97] docInit 0 1 1 2 3 4).2.1 labInit (by decide),
   (label_id_dense_shared [] [35, 97] docInit 0 1 1 2 3 4).2.2.2 (by decide)⟩

/-! ## C3 -/

/-- C3: for two consecutively buffered glyphs, with
`dx = x₂ - x₁ - lwidth₁·pixel` the deviation from the position predicted by
the first glyph's advance: (i) on one baseline with `|dx| < 4` device pixels
the two glyphs are concatenated into a single positioned show-run with no
spacing token, the deviation being treated as zero (the output does not
depend on `dx`); (ii) on one baseline with `|dx| ≥ 4` device pixels exactly
one explicit correction `-dx·(1000/pixel)/fsize` — the measured gap in
thousandths of an em at the current font size, with the PDF `TJ` sign
convention (positive displaces leftwards) — is inserted between them, still
in one `TJ` run; (iii) a changed vertical position always starts a new
positioned run. -/
theorem glyph_batching (pixel : Int) (fsize : Rat) (g1 g2 : DG) :
    (g2.y = g1.y → ¬(4 * pixel ≤ g2.x - g1.x - g1.lwidth * pixel ∨
        g2.x - g1.x - g1.lwidth * pixel ≤ -(4 * pixel)) →
      tjRuns pixel fsize [g1, g2]
        = [{ bx := g1.x, byy := g1.y,
             items := [TJItem.show [(g1.index, g1.ch), (g2.index, g2.ch)]] }]) ∧
    (g2.y = g1.y → (4 * pixel ≤ g2.x - g1.x - g1.lwidth * pixel ∨
        g2.x - g1.x - g1.lwidth * pixel ≤ -(4 * pixel)) →
      tjRuns pixel fsize [g1, g2]
        = [{ bx := g1.x, byy := g1.y,
             items := [TJItem.show [(g1.index, g1.ch)],
                       TJItem.kern (-((g2.x - g1.x - g1.lwidth * pixel : Int) : Rat)
                         * (1000 / (pixel : Rat)) / fsize),
                       TJItem.show [(g2.index, g2.ch)]] }]) ∧
    (g2.y ≠ g1.y →
      tjRuns pixel fsize [g1, g2]
        = [{ bx := g1.x, byy := g1.y, items := [TJItem.show [(g1.index, g1.ch)]] },
           { bx := g2.x, byy := g2.y, items := [TJItem.show [(g2.index, g2.ch)]] }]) := by
  refine ⟨?_, ?_, ?_⟩
  · intro hy hdx
    simp [tjRuns, tjRunsF, tjInner, flushShow, hy]
    split_ifs with hc
    · exact absurd hc (by omega)
    · simp [tjRunsF]
  · intro hy hdx
    simp [tjRuns, tjRunsF, tjInner, flushShow, hy]
    split_ifs with hc
    · refine ⟨?_, by simp [tjRunsF]⟩
      push_cast
      ring_nf
    · rcases hdx with h | h <;> exact absurd (by omega : 4 * pixel ≤ g2.x - g1.x - g1.lwidth * pixel ∨ 4 * pixel + (g2.x - g1.x) ≤ g1.lwidth * pixel) hc
  · intro hy
    simp [tjRuns, tjRunsF, tjInner, flushShow, hy]

/-- Witness for `glyph_batching`: `pixel = 16`, `fsize = 10`, a first glyph
at `x = 0` with advance `5·16 = 80`; a merged mate at `x = 100`
(deviation 20 < 64), a split mate at `x = 200` (deviation 120 ≥ 64, one
correction `-750`), and a mate on another baseline. -/
theorem glyph_batching_witness :
    (tjRuns 16 10 [{ x := 0, y := 0, ch := 65, index := 10, lwidth := 5 },
                   { x := 100, y := 0, ch := 66, index := 11, lwidth := 5 }]
      = [{ bx := 0, byy := 0, items := [TJItem.show [(10, 65), (11, 66)]] }]) ∧
    (tjRuns 16 10 [{ x := 0, y := 0, ch := 65, index := 10, lwidth := 5 },
                   { x := 200, y := 0, ch := 67, index := 12, lwidth := 5 }]
      = [{ bx := 0, byy := 0,
           items := [TJItem.show [(10, 65)], TJItem.kern (-750),
                     TJItem.show [(12, 67)]] }]) ∧
    (tjRuns 16 10 [{ x := 0, y := 0, ch := 65, index := 10, lwidth := 5 },
                   { x := 0, y := 50, ch := 68, index := 13, lwidth := 5 }]
      = [{ bx := 0, byy := 0, items := [TJItem.show [(10, 65)]] },
         { bx := 0, byy := 50, items := [TJItem.show [(13, 68)]] }]) := by
  refine ⟨?_, ?_, ?_⟩
  · have h := (glyph_batching 16 10 { x := 0, y := 0, ch := 65, index := 10, lwidth := 5 }
      { x := 100, y := 0, ch := 66, index := 11, lwidth := 5 }).1 (by decide) (by decide)
    exact h
  · have h := (glyph_batching 16 10 { x := 0, y := 0, ch := 65, index := 10, lwidth := 5 }
      { x := 200, y := 0, ch := 67, index := 12, lwidth := 5 }).2.1 (by decide) (by decide)
    rw [h]
    norm_num
  · exact (glyph_batching 16 10 { x := 0, y := 0, ch := 65, index := 10, lwidth := 5 }
      { x := 0, y := 50, ch := 68, index := 13, lwidth := 5 }).2.2 (by decide)

/-! ## Renderer machine lemmas (C7, C9, C10) -/

theorem textExt_refl (s : RS) : textExt s s :=
  ⟨rfl, [], by simp, by simp⟩

theorem textExt_trans {s1 s2 s3 : RS} (h1 : textExt s1 s2) (h2 : textExt s2 s3) :
    textExt s1 s3 := by
  obtain ⟨hc1, t1, ht1, hp1⟩ := h1
  obtain ⟨hc2, t2, ht2, hp2⟩ := h2
  refine ⟨hc2.trans hc1, t1 ++ t2, ?_, ?_⟩
  · rw [ht2, ht1, List.append_assoc]
  · intro p hp
    rcases List.mem_append.mp hp with h | h
    · exact hp1 p h
    · exact hp2 p h

theorem textExt_emit (tok : Tok) (s : RS) (h : isStateOrShape tok = false) :
    textExt s (emit tok s) :=
  ⟨rfl, [(tok, s.drawnGlyphs.length)], rfl, by simpa using h⟩

theorem beginText_textExt (s : RS) : textExt s (beginText s) := by
  unfold beginText
  split
  · exact textExt_refl s
  · exact textExt_trans
      (textExt_trans (textExt_emit Tok.bt s (by simp [isStateOrShape]))
        ⟨rfl, [], by simp, by simp⟩)
      (textExt_emit (Tok.tm 1 0 0 1 ((toX s 0 : Int) : Rat) ((toY s 0 : Int) : Rat)) _
        (by simp [isStateOrShape]))

theorem beginText_buffer (s : RS) : (beginText s).drawnGlyphs = s.drawnGlyphs := by
  unfold beginText
  split <;> rfl

theorem beginText_cases (s : RS) : beginText s = s ∨ (beginText s).inText = true := by
  unfold beginText
  split
  · exact Or.inl rfl
  · right
    rfl

theorem emitRuns_textExt (pixel : Int) : ∀ (runs : List TRun) (s : RS),
    textExt s (emitRuns pixel runs s) := by
  intro runs
  induction runs with
  | nil => intro s; exact textExt_refl s
  | cons r rs ih =>
    intro s
    refine textExt_trans ?_ (ih _)
    refine ⟨rfl,
      [(Tok.td (((r.bx.tdiv pixel : Int) : Rat) - s.prevTextX)
          (((r.byy.tdiv pixel : Int) : Rat) - s.prevTextY), s.drawnGlyphs.length),
       (Tok.tj r.items, s.drawnGlyphs.length)], ?_, ?_⟩
    · simp [emit]
    · intro p hp
      rcases List.mem_cons.mp hp with rfl | hp
      · simp [isStateOrShape]
      · rcases List.mem_singleton.mp hp with rfl
        simp [isStateOrShape]

theorem emitRuns_buffer (pixel : Int) : ∀ (runs : List TRun) (s : RS),
    (emitRuns pixel runs s).drawnGlyphs = s.drawnGlyphs := by
  intro runs
  induction runs with
  | nil => intro s; rfl
  | cons r rs ih => intro s; exact ih _

theorem drawGlyphsOp_textExt (s : RS) : textExt s (drawGlyphsOp s) := by
  unfold drawGlyphsOp
  split
  · exact textExt_refl s
  · exact textExt_trans
      (textExt_trans (beginText_textExt s)
        (emitRuns_textExt (beginText s).pixel (tjRuns s.pixel s.fsize s.drawnGlyphs)
          (beginText s)))
      ⟨rfl, [], by simp, by simp⟩

theorem drawGlyphsOp_buffer (s : RS) : (drawGlyphsOp s).drawnGlyphs = [] := by
  unfold drawGlyphsOp
  split
  · assumption
  · rfl

theorem endText_textExt (s : RS) : textExt s (endText s) := by
  unfold endText
  split
  · exact textExt_trans (drawGlyphsOp_textExt s)
      (textExt_trans (textExt_emit Tok.et (drawGlyphsOp s) (by simp [isStateOrShape]))
        ⟨rfl, [], by simp, by simp⟩)
  · exact textExt_refl s

theorem endText_inText (s : RS) : (endText s).inText = false := by
  unfold endText
  split
  · rfl
  · rename_i h
    simpa using h

theorem endText_buffer (s : RS) (hbuf : bufInv s) : (endText s).drawnGlyphs = [] := by
  unfold endText
  split
  · exact drawGlyphsOp_buffer s
  · rename_i h
    exact hbuf (by simpa using h)

theorem emit_trace_len (tok : Tok) (s : RS) :
    (emit tok s).trace.length = s.trace.length + 1 := by
  simp [emit]

theorem selectAlpha_trace_len (a : Int) (s : RS) :
    s.trace.length ≤ (selectAlpha a s).trace.length := by
  unfold selectAlpha
  split
  · dsimp only
    split <;> simp [emit]
  · exact le_rfl

theorem selectFillColor_trace_len (P : RParams) (c : Int) (s : RS) :
    s.trace.length ≤ (selectFillColor P c s).trace.length := by
  unfold selectFillColor
  refine le_trans ?_ (selectAlpha_trace_len _ _)
  split
  · simp [emit]
  · exact le_rfl

/-! ## C10 -/

/-- C10: `fill (x1, y1, x2, y2)` emits its rectangle-fill tokens only when
`x1 < x2` and `y1 < y2` hold strictly; for any other call (including
zero-width and zero-height rectangles) it returns before doing anything —
no token is emitted and the whole renderer state is unchanged.  `clear`, by
contrast, emits unconditionally: its trace is always strictly longer. -/
theorem fill_strict_guard (P : RParams) (x1 y1 x2 y2 : Int) (s : RS) :
    (¬(x1 < x2 ∧ y1 < y2) → rendFill x1 y1 x2 y2 s = s) ∧
    (x1 < x2 ∧ y1 < y2 →
       (rendFill x1 y1 x2 y2 s).trace
         = (endText s).trace ++
           [(Tok.rect (toX (endText s) (min x1 x2)) (toY (endText s) (min y1 y2))
               (toX (endText s) (max x1 x2) - toX (endText s) (min x1 x2))
               (toY (endText s) (max y1 y2) - toY (endText s) (min y1 y2)),
             (endText s).drawnGlyphs.length),
            (Tok.closeTok, (endText s).drawnGlyphs.length),
            (Tok.fillTok, (endText s).drawnGlyphs.length)]) ∧
    s.trace.length < (rendClear P x1 y1 x2 y2 s).trace.length := by
  refine ⟨?_, ?_, ?_⟩
  · intro h
    unfold rendFill
    rw [if_neg h]
  · intro h
    unfold rendFill
    rw [if_pos h]
    simp [emit]
  · have l1 : s.trace.length ≤ (endText s).trace.length := by
      obtain ⟨_, t, ht, _⟩ := endText_textExt s
      rw [ht]
      simp
    unfold rendClear
    dsimp only
    set a1 := endText s with ha1
    set a2 := emit Tok.save a1 with ha2
    set a3 := selectFillColor P a2.bg a2 with ha3
    set a4 := emit (Tok.rect (toX a1 (min x1 x2)) (toY a1 (min y1 y2))
        (toX a1 (max x1 x2) - toX a1 (min x1 x2))
        (toY a1 (max y1 y2) - toY a1 (min y1 y2))) a3 with ha4
    set a5 := emit Tok.closeTok a4 with ha5
    set a6 := emit Tok.fillTok a5 with ha6
    set a7 := selectFillColor P a6.fg a6 with ha7
    have l2 : a2.trace.length = a1.trace.length + 1 := by rw [ha2]; simp [emit]
    have l3 : a2.trace.length ≤ a3.trace.length := by
      rw [ha3]
      exact selectFillColor_trace_len _ _ _
    have l4 : a4.trace.length = a3.trace.length + 1 := by rw [ha4]; simp [emit]
    have l5 : a5.trace.length = a4.trace.length + 1 := by rw [ha5]; simp [emit]
    have l6 : a6.trace.length = a5.trace.length + 1 := by rw [ha6]; simp [emit]
    have l7 : a6.trace.length ≤ a7.trace.length := by
      rw [ha7]
      exact selectFillColor_trace_len _ _ _
    have l8 : (emit Tok.restore a7).trace.length = a7.trace.length + 1 := by simp [emit]
    omega

/-- Witness for `fill_strict_guard`: from a fresh page, a zero-width fill
is the identity, a proper fill appends exactly its three path tokens. -/
theorem fill_strict_guard_witness :
    (rendFill 0 0 0 32 (initRS 16 0 0 1000 1000) = initRS 16 0 0 1000 1000) ∧
    ((rendFill 0 0 16 32 (initRS 16 0 0 1000 1000)).trace
      = (endText (initRS 16 0 0 1000 1000)).trace ++
        [(Tok.rect (toX (endText (initRS 16 0 0 1000 1000)) (min 0 16))
            (toY (endText (initRS 16 0 0 1000 1000)) (min 0 32))
            (toX (endText (initRS 16 0 0 1000 1000)) (max 0 16)
              - toX (endText (initRS 16 0 0 1000 1000)) (min 0 16))
            (toY (endText (initRS 16 0 0 1000 1000)) (max 0 32)
              - toY (endText (initRS 16 0 0 1000 1000)) (min 0 32)),
          (endText (initRS 16 0 0 1000 1000)).drawnGlyphs.length),
         (Tok.closeTok, (endText (initRS 16 0 0 1000 1000)).drawnGlyphs.length),
         (Tok.fillTok, (endText (initRS 16 0 0 1000 1000)).drawnGlyphs.length)]) :=
  ⟨(fill_strict_guard exParams 0 0 0 32 (initRS 16 0 0 1000 1000)).1 (by decide),
   (fill_strict_guard exParams 0 0 16 32 (initRS 16 0 0 1000 1000)).2.1 (by decide)⟩

/-! ## C9 -/

/-- C9 counterexample: a `lines` call with mismatched coordinate-array
lengths is not a pure no-op and prints no diagnostic: because `end_text()`
runs before the validation check, a pending text object is closed first —
from a reachable state with one buffered glyph, the malformed call emits
three tokens (`Td`, `TJ`, `ET`) and changes the renderer state (`inText`
flips off), contradicting "emits no output tokens, leaves all renderer
state unchanged". -/
theorem lines_degenerate_cex :
    (rendLines [0] [0, 1] exDrawState).trace.length = exDrawState.trace.length + 3 ∧
    (rendLines [0] [0, 1] exDrawState).inText ≠ exDrawState.inText ∧
    exDrawState.drawnGlyphs.length = 1 ∧
    (rendLines [0] [0, 1] exDrawState).drawnGlyphs.length = 0 := by
  decide

/-- C9 (amended): a `lines` or `polygon` call whose coordinate arrays have
mismatched lengths or fewer than one point is treated as a silent no-op for
its own geometry — but only after `end_text()` has run: the call equals
`end_text`, which emits no state-change or shape token (text-object tokens
only), empties the pending glyph buffer, and leaves every non-text-object
component of the renderer state (colors, alpha, widths, clip level, fonts,
caches, registry) unchanged.  No diagnostic is produced. -/
theorem lines_polygon_degenerate_amended (xs ys : List Int) (s : RS)
    (hbuf : bufInv s)
    (h : ys.length ≠ xs.length ∨ xs.length < 1) :
    rendLines xs ys s = endText s ∧
    rendPolygon xs ys s = endText s ∧
    coreState (endText s) = coreState s ∧
    (endText s).inText = false ∧
    (endText s).drawnGlyphs = [] ∧
    (∃ t, (endText s).trace = s.trace ++ t ∧ ∀ p ∈ t, isStateOrShape p.1 = false) := by
  obtain ⟨hc, t, ht, hp⟩ := endText_textExt s
  refine ⟨?_, ?_, hc, endText_inText s, endText_buffer s hbuf, t, ht, hp⟩
  · unfold rendLines
    rw [if_pos h]
  · unfold rendPolygon
    rw [if_pos h]

/-- Witness for `lines_polygon_degenerate_amended` on a fresh page with a
one-point/two-point array mismatch. -/
theorem lines_polygon_degenerate_amended_witness :
    rendLines [0] [0, 1] (initRS 16 0 0 1000 1000) = endText (initRS 16 0 0 1000 1000) ∧
    rendPolygon [0] [0, 1] (initRS 16 0 0 1000 1000) = endText (initRS 16 0 0 1000 1000) :=
  ⟨(lines_polygon_degenerate_amended [0] [0, 1] (initRS 16 0 0 1000 1000)
      (by intro h; decide) (by decide)).1,
   (lines_polygon_degenerate_amended [0] [0, 1] (initRS 16 0 0 1000 1000)
      (by intro h; decide) (by decide)).2.1⟩

/-! ## C7 -/

theorem isSS_of_isSSNW (tok : Tok) (h : isStateOrShapeNoWidth tok = true) :
    isStateOrShape tok = true := by
  cases tok <;> simp_all [isStateOrShapeNoWidth, isStateOrShape]

theorem textTraceExt_refl (s : RS) : textTraceExt s s :=
  ⟨[], by simp, by simp⟩

theorem textTraceExt_trans {s1 s2 s3 : RS} (h1 : textTraceExt s1 s2)
    (h2 : textTraceExt s2 s3) : textTraceExt s1 s3 := by
  obtain ⟨t1, ht1, hp1⟩ := h1
  obtain ⟨t2, ht2, hp2⟩ := h2
  refine ⟨t1 ++ t2, ?_, ?_⟩
  · rw [ht2, ht1, List.append_assoc]
  · intro p hp
    rcases List.mem_append.mp hp with h | h
    · exact hp1 p h
    · exact hp2 p h

theorem textTraceExt_of_textExt {s1 s2 : RS} (h : textExt s1 s2) : textTraceExt s1 s2 :=
  h.2

theorem textTraceExt_same {s1 s2 : RS} (h : s2.trace = s1.trace) : textTraceExt s1 s2 :=
  ⟨[], by simp [h], by simp⟩

theorem textTraceExt_emit (tok : Tok) (s : RS) (h : isStateOrShape tok = false) :
    textTraceExt s (emit tok s) :=
  ⟨[(tok, s.drawnGlyphs.length)], rfl, by simpa using h⟩

theorem flushedNW_textTraceExt {u v : RS} (he : textTraceExt u v)
    (hf : flushedTraceNoWidth u) : flushedTraceNoWidth v := by
  obtain ⟨t, ht, hp⟩ := he
  intro p hpv
  rw [ht] at hpv
  rcases List.mem_append.mp hpv with h | h
  · exact hf p h
  · intro hc
    have h1 := hp p h
    rw [isSS_of_isSSNW p.1 hc] at h1
    cases h1

theorem flushedNW_emit_zero (tok : Tok) (u : RS) (h0 : u.drawnGlyphs = [])
    (hf : flushedTraceNoWidth u) : flushedTraceNoWidth (emit tok u) := by
  intro p hp
  simp only [emit] at hp
  rcases List.mem_append.mp hp with hp | hp
  · exact hf p hp
  · rcases List.mem_singleton.mp hp with rfl
    intro _
    simp [h0]

theorem flushedNW_emit_safe (tok : Tok) (u : RS) (hs : isStateOrShapeNoWidth tok = false)
    (hf : flushedTraceNoWidth u) : flushedTraceNoWidth (emit tok u) := by
  intro p hp
  simp only [emit] at hp
  rcases List.mem_append.mp hp with hp | hp
  · exact hf p hp
  · rcases List.mem_singleton.mp hp with rfl
    intro hc
    rw [hs] at hc
    cases hc

theorem beginText_inText (s : RS) : (beginText s).inText = true := by
  unfold beginText
  split
  · rename_i h
    exact h
  · rfl

theorem selectAlpha_pres (a : Int) (s : RS) :
    (selectAlpha a s).drawnGlyphs = s.drawnGlyphs ∧
    (selectAlpha a s).inText = s.inText ∧
    (s.drawnGlyphs = [] → flushedTraceNoWidth s → flushedTraceNoWidth (selectAlpha a s)) := by
  unfold selectAlpha
  split
  · dsimp only
    split
    · exact ⟨rfl, rfl, fun h0 hf => flushedNW_emit_zero _ _ h0 hf⟩
    · exact ⟨rfl, rfl, fun h0 hf => flushedNW_emit_zero _ _ h0 hf⟩
  · exact ⟨rfl, rfl, fun _ hf => hf⟩

theorem selectStrokeColor_pres (P : RParams) (c : Int) (s : RS) :
    (selectStrokeColor P c s).drawnGlyphs = s.drawnGlyphs ∧
    (selectStrokeColor P c s).inText = s.inText ∧
    (s.drawnGlyphs = [] → flushedTraceNoWidth s →
      flushedTraceNoWidth (selectStrokeColor P c s)) := by
  unfold selectStrokeColor
  dsimp only
  split
  · refine ⟨?_, ?_, ?_⟩
    · rw [(selectAlpha_pres _ _).1]
      rfl
    · rw [(selectAlpha_pres _ _).2.1]
      rfl
    · intro h0 hf
      exact (selectAlpha_pres _ _).2.2 h0 (flushedNW_emit_zero _ _ h0 hf)
  · refine ⟨(selectAlpha_pres _ _).1, (selectAlpha_pres _ _).2.1, ?_⟩
    intro h0 hf
    exact (selectAlpha_pres _ _).2.2 h0 hf

theorem selectFillColor_pres (P : RParams) (c : Int) (s : RS) :
    (selectFillColor P c s).drawnGlyphs = s.drawnGlyphs ∧
    (selectFillColor P c s).inText = s.inText ∧
    (s.drawnGlyphs = [] → flushedTraceNoWidth s →
      flushedTraceNoWidth (selectFillColor P c s)) := by
  unfold selectFillColor
  dsimp only
  split
  · refine ⟨?_, ?_, ?_⟩
    · rw [(selectAlpha_pres _ _).1]
      rfl
    · rw [(selectAlpha_pres _ _).2.1]
      rfl
    · intro h0 hf
      exact (selectAlpha_pres _ _).2.2 h0 (flushedNW_emit_zero _ _ h0 hf)
  · refine ⟨(selectAlpha_pres _ _).1, (selectAlpha_pres _ _).2.1, ?_⟩
    intro h0 hf
    exact (selectAlpha_pres _ _).2.2 h0 hf

theorem selectLineWidth_pres (w : Int) (u : RS) :
    (selectLineWidth w u).drawnGlyphs = u.drawnGlyphs ∧
    (selectLineWidth w u).inText = u.inText ∧
    (flushedTraceNoWidth u → flushedTraceNoWidth (selectLineWidth w u)) := by
  unfold selectLineWidth
  dsimp only
  split
  · exact ⟨rfl, rfl, fun hf =>
      flushedNW_emit_safe _ _ (by simp [isStateOrShapeNoWidth]) hf⟩
  · exact ⟨rfl, rfl, fun hf => hf⟩

theorem endText_pres (s : RS) (hb : bufInv s) (hf : flushedTraceNoWidth s) :
    (endText s).drawnGlyphs = [] ∧ (endText s).inText = false ∧
    flushedTraceNoWidth (endText s) :=
  ⟨endText_buffer s hb, endText_inText s,
   flushedNW_textTraceExt (textTraceExt_of_textExt (endText_textExt s)) hf⟩

theorem foldEmit_pres {α : Type} (g : RS → α → RS)
    (hg : ∀ (u : RS) (a : α), (g u a).drawnGlyphs = u.drawnGlyphs ∧
      (g u a).inText = u.inText ∧
      (u.drawnGlyphs = [] → flushedTraceNoWidth u → flushedTraceNoWidth (g u a))) :
    ∀ (l : List α) (u : RS),
      (l.foldl g u).drawnGlyphs = u.drawnGlyphs ∧
      (l.foldl g u).inText = u.inText ∧
      (u.drawnGlyphs = [] → flushedTraceNoWidth u → flushedTraceNoWidth (l.foldl g u)) := by
  intro l
  induction l with
  | nil => intro u; exact ⟨rfl, rfl, fun _ hf => hf⟩
  | cons a t ih =>
    intro u
    obtain ⟨hga, hgi, hgf⟩ := hg u a
    obtain ⟨iha, ihi, ihf⟩ := ih (g u a)
    refine ⟨by rw [List.foldl_cons, iha, hga], by rw [List.foldl_cons, ihi, hgi], ?_⟩
    intro h0 hf
    rw [List.foldl_cons]
    exact ihf (by rw [hga, h0]) (hgf h0 hf)

theorem rendLine_pres (x1 y1 x2 y2 : Int) (s : RS) (hb : bufInv s)
    (hf : flushedTraceNoWidth s) :
    bufInv (rendLine x1 y1 x2 y2 s) ∧ flushedTraceNoWidth (rendLine x1 y1 x2 y2 s) := by
  obtain ⟨b0, _, f0⟩ := endText_pres s hb hf
  unfold rendLine
  dsimp only
  have f1 := flushedNW_emit_zero (Tok.mv (toX (endText s) x1) (toY (endText s) y1))
    (endText s) b0 f0
  have b1 : (emit (Tok.mv (toX (endText s) x1) (toY (endText s) y1))
      (endText s)).drawnGlyphs = [] := b0
  have f2 := flushedNW_emit_zero (Tok.ln (toX (endText s) x2) (toY (endText s) y2)) _ b1 f1
  have b2 : (emit (Tok.ln (toX (endText s) x2) (toY (endText s) y2))
      (emit (Tok.mv (toX (endText s) x1) (toY (endText s) y1))
        (endText s))).drawnGlyphs = [] := b0
  have f3 := flushedNW_emit_zero Tok.strokeTok _ b2 f2
  exact ⟨fun _ => b0, f3⟩

theorem rendLines_pres (xs ys : List Int) (s : RS) (hb : bufInv s)
    (hf : flushedTraceNoWidth s) :
    bufInv (rendLines xs ys s) ∧ flushedTraceNoWidth (rendLines xs ys s) := by
  obtain ⟨b0, i0, f0⟩ := endText_pres s hb hf
  unfold rendLines
  dsimp only
  split
  · exact ⟨fun _ => b0, f0⟩
  · have f1 := flushedNW_emit_zero
      (Tok.mv (toX (endText s) (xs.headD 0)) (toY (endText s) (ys.headD 0))) (endText s) b0 f0
    have hfold := foldEmit_pres (fun s p => emit (Tok.ln (toX s p.1) (toY s p.2)) s)
      (fun u p => ⟨rfl, rfl, fun h0 hg => flushedNW_emit_zero _ _ h0 hg⟩)
      (List.zip xs.tail ys.tail)
      (emit (Tok.mv (toX (endText s) (xs.headD 0)) (toY (endText s) (ys.headD 0))) (endText s))
    obtain ⟨bF, iF, fF⟩ := hfold
    have f2 := fF b0 f1
    have b2 : (List.foldl (fun s p => emit (Tok.ln (toX s p.1) (toY s p.2)) s)
        (emit (Tok.mv (toX (endText s) (xs.headD 0)) (toY (endText s) (ys.headD 0)))
          (endText s)) (List.zip xs.tail ys.tail)).drawnGlyphs = [] := by
      rw [bF]
      exact b0
    have f3 := flushedNW_emit_zero Tok.strokeTok _ b2 f2
    refine ⟨fun _ => ?_, f3⟩
    exact b2

theorem rendPolygon_pres (xs ys : List Int) (s : RS) (hb : bufInv s)
    (hf : flushedTraceNoWidth s) :
    bufInv (rendPolygon xs ys s) ∧ flushedTraceNoWidth (rendPolygon xs ys s) := by
  obtain ⟨b0, i0, f0⟩ := endText_pres s hb hf
  unfold rendPolygon
  dsimp only
  split
  · exact ⟨fun _ => b0, f0⟩
  · have f1 := flushedNW_emit_zero
      (Tok.mv (toX (endText s) (xs.headD 0)) (toY (endText s) (ys.headD 0))) (endText s) b0 f0
    have hfold := foldEmit_pres (fun s p => emit (Tok.ln (toX s p.1) (toY s p.2)) s)
      (fun u p => ⟨rfl, rfl, fun h0 hg => flushedNW_emit_zero _ _ h0 hg⟩)
      (List.zip xs.tail ys.tail)
      (emit (Tok.mv (toX (endText s) (xs.headD 0)) (toY (endText s) (ys.headD 0))) (endText s))
    obtain ⟨bF, iF, fF⟩ := hfold
    have f2 := fF b0 f1
    have b2 : (List.foldl (fun s p => emit (Tok.ln (toX s p.1) (toY s p.2)) s)
        (emit (Tok.mv (toX (endText s) (xs.headD 0)) (toY (endText s) (ys.headD 0)))
          (endText s)) (List.zip xs.tail ys.tail)).drawnGlyphs = [] := by
      rw [bF]
      exact b0
    have f3 := flushedNW_emit_zero Tok.closeTok _ b2 f2
    have b3 : (emit Tok.closeTok
        (List.foldl (fun s p => emit (Tok.ln (toX s p.1) (toY s p.2)) s)
          (emit (Tok.mv (toX (endText s) (xs.headD 0)) (toY (endText s) (ys.headD 0)))
            (endText s)) (List.zip xs.tail ys.tail))).drawnGlyphs = [] := b2
    have f4 := flushedNW_emit_zero Tok.fillTok _ b3 f3
    exact ⟨fun _ => b3, f4⟩

theorem emit_zero_pack (tok : Tok) (u : RS)
    (h : u.drawnGlyphs = [] ∧ flushedTraceNoWidth u) :
    (emit tok u).drawnGlyphs = [] ∧ flushedTraceNoWidth (emit tok u) :=
  ⟨h.1, flushedNW_emit_zero tok u h.1 h.2⟩

theorem textTraceExt_emit_any {u : RS} (tok : Tok) (v : RS) (hv : v.trace = u.trace)
    (hs : isStateOrShape tok = false) : textTraceExt u (emit tok v) :=
  ⟨[(tok, v.drawnGlyphs.length)], by simp [emit, hv], by simpa using hs⟩

theorem fontResolve_same (P : RParams) (fname : String) (s : RS) :
    (fontResolve P fname s).trace = s.trace ∧
    (fontResolve P fname s).drawnGlyphs = s.drawnGlyphs ∧
    (fontResolve P fname s).inText = s.inText := by
  unfold fontResolve
  dsimp only
  repeat' split
  all_goals exact ⟨rfl, rfl, rfl⟩

theorem fontSelect_tte (P : RParams) (fname : String) (s : RS) :
    textTraceExt s (fontSelect P fname s) := by
  unfold fontSelect
  dsimp only
  split
  · have t1 : textTraceExt s (fontResolve P fname s) :=
      textTraceExt_same (fontResolve_same P fname s).1
    have t2 := textTraceExt_trans t1 (textTraceExt_of_textExt (beginText_textExt _))
    have t3 := textTraceExt_trans t2 (textTraceExt_of_textExt (drawGlyphsOp_textExt _))
    split
    · exact textTraceExt_trans t3 (textTraceExt_emit_any _ _ rfl (by simp [isStateOrShape]))
    · exact textTraceExt_trans t3 (textTraceExt_emit_any _ _ rfl (by simp [isStateOrShape]))
  · exact textTraceExt_refl s

theorem fontSelect_buf (P : RParams) (fname : String) (s : RS) (hb : bufInv s) :
    bufInv (fontSelect P fname s) := by
  unfold fontSelect
  dsimp only
  split
  · split
    · intro _
      exact drawGlyphsOp_buffer _
    · intro _
      exact drawGlyphsOp_buffer _
  · exact hb

theorem rendDraw_pres (P : RParams) (fname : String) (ch : Int) (g : Option GlyphData)
    (x y : Int) (s : RS) (hb : bufInv s) (hf : flushedTraceNoWidth s) :
    bufInv (rendDraw P fname ch g x y s) ∧
    flushedTraceNoWidth (rendDraw P fname ch g x y s) := by
  cases g with
  | none => exact ⟨hb, hf⟩
  | some gl =>
    have tS := fontSelect_tte P fname s
    unfold rendDraw
    dsimp only
    split
    · constructor
      · intro hIT
        have h2 : (beginText (fontSelect P fname s)).inText = false := hIT
        rw [beginText_inText] at h2
        cases h2
      · refine flushedNW_textTraceExt ?_ hf
        refine textTraceExt_trans tS ?_
        refine textTraceExt_trans (textTraceExt_of_textExt (beginText_textExt _)) ?_
        exact textTraceExt_same rfl
    · constructor
      · intro hIT
        have h2 : (beginText (fontSelect P fname s)).inText = false := hIT
        rw [beginText_inText] at h2
        cases h2
      · have c1 := textTraceExt_trans tS
          (textTraceExt_of_textExt (beginText_textExt (fontSelect P fname s)))
        have c2 := textTraceExt_trans c1 (textTraceExt_emit_any
          (Tok.td (((toX (beginText (fontSelect P fname s)) x : Int) : Rat)
              - (beginText (fontSelect P fname s)).prevTextX)
            (((toY (beginText (fontSelect P fname s)) y : Int) : Rat)
              - (beginText (fontSelect P fname s)).prevTextY))
          (beginText (fontSelect P fname s)) rfl (by simp [isStateOrShape]))
        refine flushedNW_textTraceExt ?_ hf
        exact textTraceExt_trans c2
          (textTraceExt_emit_any (Tok.tjlow ch) _ rfl (by simp [isStateOrShape]))

theorem rendSetPencil_pres (P : RParams) (c w : Int) (s : RS) (hb : bufInv s)
    (hf : flushedTraceNoWidth s) :
    bufInv (rendSetPencil P c w s) ∧ flushedTraceNoWidth (rendSetPencil P c w s) := by
  unfold rendSetPencil
  dsimp only
  by_cases hc : s.fg ≠ c
  · simp only [if_pos hc]
    have f2 : flushedTraceNoWidth (drawGlyphsOp { s with fg := c }) :=
      flushedNW_textTraceExt (textTraceExt_of_textExt (drawGlyphsOp_textExt _)) hf
    have b2 : (drawGlyphsOp { s with fg := c }).drawnGlyphs = [] := drawGlyphsOp_buffer _
    have b3 : (selectFillColor P c (drawGlyphsOp { s with fg := c })).drawnGlyphs = [] := by
      rw [(selectFillColor_pres _ _ _).1]
      exact b2
    have f3 := (selectFillColor_pres P c (drawGlyphsOp { s with fg := c })).2.2 b2 f2
    have b4 : (selectStrokeColor P c
        (selectFillColor P c (drawGlyphsOp { s with fg := c }))).drawnGlyphs = [] := by
      rw [(selectStrokeColor_pres _ _ _).1]
      exact b3
    have f4 := (selectStrokeColor_pres P c
      (selectFillColor P c (drawGlyphsOp { s with fg := c }))).2.2 b3 f3
    constructor
    · intro _
      rw [(selectLineWidth_pres _ _).1]
      exact b4
    · exact (selectLineWidth_pres _ _).2.2 f4
  · simp only [if_neg hc]
    constructor
    · intro hIT
      rw [(selectLineWidth_pres _ _).1]
      rw [(selectLineWidth_pres _ _).2.1] at hIT
      exact hb hIT
    · exact (selectLineWidth_pres _ _).2.2 hf

theorem rendSetBackground_pres (c : Int) (s : RS) (hb : bufInv s)
    (hf : flushedTraceNoWidth s) :
    bufInv (rendSetBackground c s) ∧ flushedTraceNoWidth (rendSetBackground c s) :=
  ⟨hb, hf⟩

theorem rendSetClipping_pres (x1 y1 x2 y2 : Int) (restore : Bool) (s : RS)
    (hb : bufInv s) (hf : flushedTraceNoWidth s) :
    bufInv (rendSetClipping x1 y1 x2 y2 restore s) ∧
    flushedTraceNoWidth (rendSetClipping x1 y1 x2 y2 restore s) := by
  obtain ⟨b0, i0, f0⟩ := endText_pres s hb hf
  unfold rendSetClipping
  dsimp only
  split
  · have h1 := emit_zero_pack Tok.restore (endText s) ⟨b0, f0⟩
    constructor
    · intro _
      show (if 0 < (emit Tok.restore (endText s)).clipLevel then _ else _ : RS).drawnGlyphs = []
      split <;> exact h1.1
    · show flushedTraceNoWidth
        ({ (if 0 < (emit Tok.restore (endText s)).clipLevel then _ else _ : RS) with cfn := "" })
      split <;> exact h1.2
  · have h1 := emit_zero_pack Tok.save (endText s) ⟨b0, f0⟩
    have h2 := emit_zero_pack
      (Tok.rect (toX { emit Tok.save (endText s) with
          clipLevel := (emit Tok.save (endText s)).clipLevel + 1 } (min x1 x2))
        (toY { emit Tok.save (endText s) with
          clipLevel := (emit Tok.save (endText s)).clipLevel + 1 } (min y1 y2))
        (toX { emit Tok.save (endText s) with
          clipLevel := (emit Tok.save (endText s)).clipLevel + 1 } (max x1 x2)
          - toX { emit Tok.save (endText s) with
              clipLevel := (emit Tok.save (endText s)).clipLevel + 1 } (min x1 x2))
        (toY { emit Tok.save (endText s) with
          clipLevel := (emit Tok.save (endText s)).clipLevel + 1 } (max y1 y2)
          - toY { emit Tok.save (endText s) with
              clipLevel := (emit Tok.save (endText s)).clipLevel + 1 } (min y1 y2)))
      { emit Tok.save (endText s) with
        clipLevel := (emit Tok.save (endText s)).clipLevel + 1 } ⟨h1.1, h1.2⟩
    have h3 := emit_zero_pack Tok.clipTok _ h2
    have h4 := emit_zero_pack Tok.endPath _ h3
    exact ⟨fun _ => h4.1, h4.2⟩

theorem rendClear_pres (P : RParams) (x1 y1 x2 y2 : Int) (s : RS) (hb : bufInv s)
    (hf : flushedTraceNoWidth s) :
    bufInv (rendClear P x1 y1 x2 y2 s) ∧ flushedTraceNoWidth (rendClear P x1 y1 x2 y2 s) := by
  obtain ⟨b0, i0, f0⟩ := endText_pres s hb hf
  unfold rendClear
  dsimp only
  set a1 := endText s with ha1
  set a2 := emit Tok.save a1 with ha2
  set a3 := selectFillColor P a2.bg a2 with ha3
  set a4 := emit (Tok.rect (toX a1 (min x1 x2)) (toY a1 (min y1 y2))
      (toX a1 (max x1 x2) - toX a1 (min x1 x2))
      (toY a1 (max y1 y2) - toY a1 (min y1 y2))) a3 with ha4
  set a5 := emit Tok.closeTok a4 with ha5
  set a6 := emit Tok.fillTok a5 with ha6
  set a7 := selectFillColor P a6.fg a6 with ha7
  have p2 : a2.drawnGlyphs = [] ∧ flushedTraceNoWidth a2 := by
    rw [ha2]
    exact emit_zero_pack _ _ ⟨b0, f0⟩
  have p3 : a3.drawnGlyphs = [] ∧ flushedTraceNoWidth a3 := by
    rw [ha3]
    exact ⟨by rw [(selectFillColor_pres _ _ _).1]; exact p2.1,
           (selectFillColor_pres _ _ _).2.2 p2.1 p2.2⟩
  have p4 : a4.drawnGlyphs = [] ∧ flushedTraceNoWidth a4 := by
    rw [ha4]
    exact emit_zero_pack _ _ p3
  have p5 : a5.drawnGlyphs = [] ∧ flushedTraceNoWidth a5 := by
    rw [ha5]
    exact emit_zero_pack _ _ p4
  have p6 : a6.drawnGlyphs = [] ∧ flushedTraceNoWidth a6 := by
    rw [ha6]
    exact emit_zero_pack _ _ p5
  have p7 : a7.drawnGlyphs = [] ∧ flushedTraceNoWidth a7 := by
    rw [ha7]
    exact ⟨by rw [(selectFillColor_pres _ _ _).1]; exact p6.1,
           (selectFillColor_pres _ _ _).2.2 p6.1 p6.2⟩
  exact ⟨fun _ => (emit_zero_pack Tok.restore a7 p7).1,
         (emit_zero_pack Tok.restore a7 p7).2⟩

theorem rendFill_pres (x1 y1 x2 y2 : Int) (s : RS) (hb : bufInv s)
    (hf : flushedTraceNoWidth s) :
    bufInv (rendFill x1 y1 x2 y2 s) ∧ flushedTraceNoWidth (rendFill x1 y1 x2 y2 s) := by
  unfold rendFill
  dsimp only
  split
  · obtain ⟨b0, i0, f0⟩ := endText_pres s hb hf
    set a1 := endText s with ha1
    set a2 := emit (Tok.rect (toX a1 (min x1 x2)) (toY a1 (min y1 y2))
        (toX a1 (max x1 x2) - toX a1 (min x1 x2))
        (toY a1 (max y1 y2) - toY a1 (min y1 y2))) a1 with ha2
    set a3 := emit Tok.closeTok a2 with ha3
    have p2 : a2.drawnGlyphs = [] ∧ flushedTraceNoWidth a2 := by
      rw [ha2]
      exact emit_zero_pack _ _ ⟨b0, f0⟩
    have p3 : a3.drawnGlyphs = [] ∧ flushedTraceNoWidth a3 := by
      rw [ha3]
      exact emit_zero_pack _ _ p2
    exact ⟨fun _ => (emit_zero_pack Tok.fillTok a3 p3).1,
           (emit_zero_pack Tok.fillTok a3 p3).2⟩
  · exact ⟨hb, hf⟩

theorem rendBezierArc_pres (x1 y1 x2 y2 alpha delta : Int) (u : RS)
    (h : u.drawnGlyphs = [] ∧ flushedTraceNoWidth u) :
    (rendBezierArc x1 y1 x2 y2 alpha delta u).drawnGlyphs = [] ∧
    flushedTraceNoWidth (rendBezierArc x1 y1 x2 y2 alpha delta u) := by
  unfold rendBezierArc
  dsimp only
  set u2 := emit Tok.save u with hu2
  set u3 := emit (Tok.arcScale (toX u x1) (toY u y1) (toX u x2) (toY u y2)) u2 with hu3
  set u4 := (if alpha ≠ 0 then emit (Tok.arcRot alpha) u3 else u3) with hu4
  set u5 := (if delta = 23040 then emit (Tok.arcMove (ArcPoint.circ 0)) u4
    else emit (Tok.arcLine (ArcPoint.circ 0)) (emit (Tok.arcMove ArcPoint.center) u4))
    with hu5
  set u6 := emitArcSegs (arcSegs delta 0 0) u5 with hu6
  set u7 := emit Tok.closeTok u6 with hu7
  have p3 : u3.drawnGlyphs = [] ∧ flushedTraceNoWidth u3 := by
    rw [hu3, hu2]
    exact emit_zero_pack _ _ (emit_zero_pack _ _ h)
  have p4 : u4.drawnGlyphs = [] ∧ flushedTraceNoWidth u4 := by
    rw [hu4]
    split
    · exact emit_zero_pack _ _ p3
    · exact p3
  have p5 : u5.drawnGlyphs = [] ∧ flushedTraceNoWidth u5 := by
    rw [hu5]
    split
    · exact emit_zero_pack _ _ p4
    · exact emit_zero_pack _ _ (emit_zero_pack _ _ p4)
  have p6 : u6.drawnGlyphs = [] ∧ flushedTraceNoWidth u6 := by
    rw [hu6]
    unfold emitArcSegs
    have hF := foldEmit_pres
      (fun s seg => emit (Tok.arcCurve seg.phi) (emit (Tok.arcSegRot seg.frameRot) s))
      (fun v a => ⟨rfl, rfl,
        fun h0 hg => flushedNW_emit_zero _ _ h0 (flushedNW_emit_zero _ _ h0 hg)⟩)
      (arcSegs delta 0 0) u5
    exact ⟨by rw [hF.1]; exact p5.1, hF.2.2 p5.1 p5.2⟩
  have p7 : u7.drawnGlyphs = [] ∧ flushedTraceNoWidth u7 := by
    rw [hu7]
    exact emit_zero_pack _ _ p6
  exact emit_zero_pack Tok.restore u7 p7

theorem rendArc_pres (x1 y1 x2 y2 alpha delta : Int) (s : RS) (hb : bufInv s)
    (hf : flushedTraceNoWidth s) :
    bufInv (rendArc x1 y1 x2 y2 alpha delta s) ∧
    flushedTraceNoWidth (rendArc x1 y1 x2 y2 alpha delta s) := by
  obtain ⟨b0, i0, f0⟩ := endText_pres s hb hf
  unfold rendArc
  dsimp only
  have hB := rendBezierArc_pres x1 y1 x2 y2 alpha delta (endText s) ⟨b0, f0⟩
  exact ⟨fun _ => (emit_zero_pack Tok.strokeTok _ hB).1,
         (emit_zero_pack Tok.strokeTok _ hB).2⟩

theorem rendFillArc_pres (x1 y1 x2 y2 alpha delta : Int) (s : RS) (hb : bufInv s)
    (hf : flushedTraceNoWidth s) :
    bufInv (rendFillArc x1 y1 x2 y2 alpha delta s) ∧
    flushedTraceNoWidth (rendFillArc x1 y1 x2 y2 alpha delta s) := by
  obtain ⟨b0, i0, f0⟩ := endText_pres s hb hf
  unfold rendFillArc
  dsimp only
  have hB := rendBezierArc_pres x1 y1 x2 y2 alpha delta (endText s) ⟨b0, f0⟩
  exact ⟨fun _ => (emit_zero_pack Tok.fillTok _ hB).1,
         (emit_zero_pack Tok.fillTok _ hB).2⟩

theorem stepOp_pres (P : RParams) (op : ROp) (s : RS) (hb : bufInv s)
    (hf : flushedTraceNoWidth s) :
    bufInv (stepOp P s op) ∧ flushedTraceNoWidth (stepOp P s op) := by
  cases op with
  | draw fname ch g x y => exact rendDraw_pres P fname ch g x y s hb hf
  | setPencil c w => exact rendSetPencil_pres P c w s hb hf
  | setBackground c => exact rendSetBackground_pres c s hb hf
  | setClipping x1 y1 x2 y2 r => exact rendSetClipping_pres x1 y1 x2 y2 r s hb hf
  | line x1 y1 x2 y2 => exact rendLine_pres x1 y1 x2 y2 s hb hf
  | lines xs ys => exact rendLines_pres xs ys s hb hf
  | clear x1 y1 x2 y2 => exact rendClear_pres P x1 y1 x2 y2 s hb hf
  | fill x1 y1 x2 y2 => exact rendFill_pres x1 y1 x2 y2 s hb hf
  | polygon xs ys => exact rendPolygon_pres xs ys s hb hf
  | arc x1 y1 x2 y2 a d => exact rendArc_pres x1 y1 x2 y2 a d s hb hf
  | fillArc x1 y1 x2 y2 a d => exact rendFillArc_pres x1 y1 x2 y2 a d s hb hf

/-- C7 counterexample: from a reachable state with one glyph pending in the
buffer (pencil set, one glyph drawn), a `set_pencil` call with the same
color but a different width does not flush the pending run: exactly one
state-change token — the line-width token `w 3` — is written while the
pending glyph buffer holds 1 glyph.  The starting state's own trace is
clean, so the violation is produced by this very call, contradicting "every
state-changing … call first flushes any pending buffered glyph run". -/
theorem flush_before_state_cex :
    ((runOps exParams [ROp.setPencil 5 48] exDrawState).trace.filter
        (fun p => isStateOrShape p.1 && decide (p.2 ≠ 0)))
      = [(Tok.widthTok 3, 1)] ∧
    exDrawState.drawnGlyphs.length = 1 ∧
    (exDrawState.trace.filter (fun p => isStateOrShape p.1 && decide (p.2 ≠ 0))) = [] := by
  decide

/-- C7 (amended): every state-changing or non-text call first flushes any
pending buffered glyph run before it emits its own tokens — except the
line-width token of `set_pencil`, which `select_line_width` emits without a
flush when the pencil's color is unchanged but its width differs.
Formally: along any renderer-call sequence from a state with a clean trace
and buffer hygiene, every recorded state-change or shape token other than
the line-width token is written at a moment when the pending glyph buffer
is empty (and buffer hygiene is maintained).  Text output is appended to
the same single trace, so text marks stay interleaved in submission order
with all other marks. -/
theorem flush_before_state_amended (P : RParams) (ops : List ROp) (s : RS)
    (hb : bufInv s) (hf : flushedTraceNoWidth s) :
    bufInv (runOps P ops s) ∧ flushedTraceNoWidth (runOps P ops s) := by
  induction ops generalizing s with
  | nil => exact ⟨hb, hf⟩
  | cons op t ih =>
    obtain ⟨hb1, hf1⟩ := stepOp_pres P op s hb hf
    exact ih (stepOp P s op) hb1 hf1

/-- Witness for `flush_before_state_amended`: a concrete page with pencil,
text, clipping and shape calls. -/
theorem flush_before_state_amended_witness :
    bufInv (runOps exParams
      [ROp.setPencil 5 32, ROp.draw "f" 65 (some { index := 1, lwidth := 2 }) 0 0,
       ROp.line 0 0 64 64, ROp.setClipping 0 0 64 64 false,
       ROp.fill 0 0 32 32, ROp.setClipping 0 0 64 64 true]
      (initRS 16 0 0 1000 1000)) ∧
    flushedTraceNoWidth (runOps exParams
      [ROp.setPencil 5 32, ROp.draw "f" 65 (some { index := 1, lwidth := 2 }) 0 0,
       ROp.line 0 0 64 64, ROp.setClipping 0 0 64 64 false,
       ROp.fill 0 0 32 32, ROp.setClipping 0 0 64 64 true]
      (initRS 16 0 0 1000 1000)) :=
  flush_before_state_amended exParams
    [ROp.setPencil 5 32, ROp.draw "f" 65 (some { index := 1, lwidth := 2 }) 0 0,
     ROp.line 0 0 64 64, ROp.setClipping 0 0 64 64 false,
     ROp.fill 0 0 32 32, ROp.setClipping 0 0 64 64 true]
    (initRS 16 0 0 1000 1000) (fun _ => rfl)
    (by unfold flushedTraceNoWidth; decide)

theorem goResultInv_trivial (parent curId count ctr : Nat) (rest : List OEntry)
    (lastId : Nat) :
    goResultInv parent curId count ctr
      { out := [], rest := rest, lastId := lastId, count := count, ctr := ctr } := by
  unfold goResultInv directChildren
  refine ⟨le_refl _, ?_, ?_, ?_, ?_⟩ <;> simp

theorem recResultInv_trivial (parent ctr : Nat) (rest : List OEntry) :
    recResultInv parent ctr
      { out := [], rest := rest, firstId := 0, lastId := 0, count := 0, ctr := ctr } := by
  unfold recResultInv directChildren
  refine ⟨le_refl _, ?_, ?_, ?_, ?_⟩ <;> simp

theorem outlineGo_zero_id (fuel parent : Nat) (it : List OEntry) (prev count ctr : Nat) :
    outlineGo fuel parent it 0 prev count ctr =
      { out := [], rest := it, lastId := prev, count := count, ctr := ctr } := by
  cases fuel <;> rfl

theorem outlineGo_nil (fuel parent : Nat) (curId prev count ctr : Nat) (hc : ¬curId = 0) :
    outlineGo (fuel + 1) parent [] curId prev count ctr =
      { out := [], rest := [], lastId := prev, count := count, ctr := ctr } := by
  simp only [outlineGo]
  rw [if_neg hc]

theorem outlineGo_succ (fuel parent : Nat) (oitem : OEntry) (it1 : List OEntry)
    (curId prev count ctr : Nat) (hc : ¬curId = 0) :
    outlineGo (fuel + 1) parent (oitem :: it1) curId prev count ctr =
      goStep fuel parent oitem it1 curId prev count ctr := by
  simp only [outlineGo]
  rw [if_neg hc]
  rfl

theorem nextAllocOf_shape (oitem : OEntry) (s : RecResult) :
    ((nextAllocOf oitem s).1 = 0 ∧ (nextAllocOf oitem s).2 = s.ctr) ∨
    ((nextAllocOf oitem s).1 = s.ctr ∧ (nextAllocOf oitem s).2 = s.ctr + 1) := by
  unfold nextAllocOf
  rcases hsr : s.rest with _ | ⟨nxt, t⟩
  · exact Or.inl ⟨rfl, rfl⟩
  · dsimp only
    split
    · exact Or.inr ⟨rfl, rfl⟩
    · exact Or.inl ⟨rfl, rfl⟩

theorem recResultInv_ofGo (parent ctr : Nat) (r : GoResult)
    (h : goResultInv parent ctr 0 (ctr + 1) r) :
    recResultInv parent ctr
      { out := r.out, rest := r.rest, firstId := ctr, lastId := r.lastId,
        count := r.count, ctr := r.ctr } := by
  obtain ⟨h1, h2, h3, h4, h5⟩ := h
  unfold recResultInv
  dsimp only
  refine ⟨by omega, ?_, ?_, ?_, ?_⟩
  · intro d hd
    rcases h2 d hd with ⟨_, hcur⟩ | ⟨ha, hb⟩
    · constructor <;> omega
    · constructor <;> omega
  · intro d hd
    rcases h3 d hd with hp | ⟨_, hp⟩ | ⟨ha, hb⟩
    · exact Or.inl hp
    · exact Or.inr (by omega)
    · exact Or.inr (by omega)
  · simpa using h4
  · exact h5

theorem subOf_inv (fuel curId : Nat) (oitem : OEntry) (it1 : List OEntry) (ctr : Nat)
    (ih : ∀ (parent : Nat) (it : List OEntry) (curId2 prev count2 ctr2 : Nat),
      0 < parent → parent < ctr2 → curId2 < ctr2 → parent ≠ curId2 →
      goResultInv parent curId2 count2 ctr2
        (outlineGo fuel parent it curId2 prev count2 ctr2))
    (hc0 : ¬curId = 0) (hcc : curId < ctr) :
    recResultInv curId ctr (subOf fuel curId oitem it1 ctr) := by
  cases it1 with
  | nil => exact recResultInv_trivial curId ctr []
  | cons nxt t =>
    unfold subOf
    dsimp only
    split
    · exact recResultInv_ofGo curId ctr _
        (ih curId (nxt :: t) ctr 0 0 (ctr + 1)
          (Nat.pos_of_ne_zero hc0) (by omega) (by omega) (by omega))
    · exact recResultInv_trivial curId ctr (nxt :: t)

theorem goAssembleInv (parent curId count ctr : Nat)
    (s : RecResult) (na : Nat × Nat) (r : GoResult) (D : ODict)
    (hs : recResultInv curId ctr s)
    (hna : (na.1 = 0 ∧ na.2 = s.ctr) ∨ (na.1 = s.ctr ∧ na.2 = s.ctr + 1))
    (hr : goResultInv parent na.1 (count + 1) na.2 r)
    (hDcur : D.curId = curId) (hDpar : D.parentId = parent)
    (hDchild : D.child = if 0 < s.count then some (s.firstId, s.lastId, -(s.count : Int))
               else none)
    (hp : 0 < parent) (hpc : parent < ctr) (hcc : curId < ctr) (hne : parent ≠ curId)
    (hc0 : ¬curId = 0) :
    goResultInv parent curId count ctr
      { out := s.out ++ D :: r.out, rest := r.rest, lastId := r.lastId,
        count := r.count, ctr := r.ctr } := by
  obtain ⟨hs1, hs2, hs3, hs4, hs5⟩ := hs
  obtain ⟨hr1, hr2, hr3, hr4, hr5⟩ := hr
  have hna2 : s.ctr ≤ na.2 := by rcases hna with ⟨_, h⟩ | ⟨_, h⟩ <;> omega
  have hmem : ∀ d : ODict, d ∈ s.out ++ D :: r.out → d ∈ s.out ∨ d = D ∨ d ∈ r.out := by
    intro d hd
    simpa [List.mem_append, List.mem_cons] using hd
  unfold goResultInv directChildren at *
  dsimp only
  refine ⟨by omega, ?_, ?_, ?_, ?_⟩
  · intro d hd
    rcases hmem d hd with hd | rfl | hd
    · have := hs2 d hd
      exact Or.inr (by omega)
    · exact Or.inl ⟨hc0, hDcur⟩
    · rcases hr2 d hd with ⟨hne0, hcur⟩ | ⟨ha, hb⟩
      · rcases hna with ⟨h1, h2⟩ | ⟨h1, h2⟩
        · omega
        · exact Or.inr (by omega)
      · exact Or.inr (by omega)
  · intro d hd
    rcases hmem d hd with hd | rfl | hd
    · rcases hs3 d hd with h | h
      · exact Or.inr (Or.inl ⟨hc0, h⟩)
      · exact Or.inr (Or.inr (by omega))
    · exact Or.inl hDpar
    · rcases hr3 d hd with h | ⟨hne0, h⟩ | h
      · exact Or.inl h
      · rcases hna with ⟨h1, h2⟩ | ⟨h1, h2⟩
        · omega
        · exact Or.inr (Or.inr (by omega))
      · exact Or.inr (Or.inr (by omega))
  · have hsz : s.out.filter (fun e => e.parentId = parent) = [] := by
      rw [List.filter_eq_nil_iff]
      intro e he
      simp only [decide_eq_true_eq]
      rcases hs3 e he with h | h <;> omega
    rw [List.filter_append, List.filter_cons, hsz,
      if_pos (by simp only [decide_eq_true_eq]; exact hDpar)]
    simp only [List.nil_append, List.length_cons]
    omega
  · intro d hd
    rcases hmem d hd with hd | rfl | hd
    · have hcb := hs2 d hd
      have e1 : (D :: r.out).filter (fun e => e.parentId = d.curId) = [] := by
        rw [List.filter_cons, if_neg (by simp only [decide_eq_true_eq, hDpar]; omega)]
        rw [List.filter_eq_nil_iff]
        intro e he
        simp only [decide_eq_true_eq]
        rcases hr3 e he with h | ⟨hne0, h⟩ | h
        · omega
        · rcases hna with ⟨h1, h2⟩ | ⟨h1, h2⟩ <;> omega
        · omega
      have e2 : (s.out ++ D :: r.out).filter (fun e => e.parentId = d.curId)
          = s.out.filter (fun e => e.parentId = d.curId) := by
        rw [List.filter_append, e1, List.append_nil]
      rw [e2]
      exact hs5 d hd
    · simp only [hDcur]
      have hb : (d :: r.out).filter (fun e => e.parentId = curId) = [] := by
        rw [List.filter_cons, if_neg (by simp only [decide_eq_true_eq, hDpar]; omega)]
        rw [List.filter_eq_nil_iff]
        intro e he
        simp only [decide_eq_true_eq]
        rcases hr3 e he with h | ⟨hne0, h⟩ | h
        · omega
        · rcases hna with ⟨h1, h2⟩ | ⟨h1, h2⟩ <;> omega
        · omega
      have e1 : (s.out ++ d :: r.out).filter (fun e => e.parentId = curId)
          = s.out.filter (fun e => e.parentId = curId) := by
        rw [List.filter_append, hb, List.append_nil]
      rw [e1]
      have hccd : childCountNat d = (if 0 < s.count then s.count else 0) := by
        unfold childCountNat
        rw [hDchild]
        by_cases hsc : 0 < s.count
        · rw [if_pos hsc, if_pos hsc]
          dsimp only
          omega
        · rw [if_neg hsc, if_neg hsc]
      constructor
      · rw [hccd]
        by_cases hsc : 0 < s.count
        · rw [if_pos hsc]
          omega
        · rw [if_neg hsc]
          omega
      · rw [hDchild]
        by_cases hsc : 0 < s.count
        · rw [if_pos hsc]
          constructor
          · intro h
            exact absurd h (by simp)
          · intro h
            have hlen := congrArg List.length h
            simp only [List.length_nil] at hlen
            omega
        · rw [if_neg hsc]
          constructor
          · intro _
            have hlen : (s.out.filter (fun e => e.parentId = curId)).length = 0 := by omega
            exact List.length_eq_zero.mp hlen
          · intro _
            rfl
    · have hge : s.ctr ≤ d.curId := by
        rcases hr2 d hd with ⟨hne0, hcur⟩ | ⟨ha, hb⟩
        · rcases hna with ⟨h1, h2⟩ | ⟨h1, h2⟩ <;> omega
        · omega
      have e1 : s.out.filter (fun e => e.parentId = d.curId) = [] := by
        rw [List.filter_eq_nil_iff]
        intro e he
        simp only [decide_eq_true_eq]
        rcases hs3 e he with h | h <;> omega
      have e2 : (s.out ++ D :: r.out).filter (fun e => e.parentId = d.curId)
          = r.out.filter (fun e => e.parentId = d.curId) := by
        rw [List.filter_append, e1, List.nil_append, List.filter_cons,
          if_neg (by simp only [decide_eq_true_eq, hDpar]; omega)]
      rw [e2]
      exact hr5 d hd

theorem outlineGo_inv (fuel : Nat) :
    ∀ (parent : Nat) (it : List OEntry) (curId prev count ctr : Nat),
      0 < parent → parent < ctr → curId < ctr → parent ≠ curId →
      goResultInv parent curId count ctr (outlineGo fuel parent it curId prev count ctr) := by
  induction fuel with
  | zero =>
    intro parent it curId prev count ctr _ _ _ _
    exact goResultInv_trivial parent curId count ctr it prev
  | succ fuel ih =>
    intro parent it curId prev count ctr hp hpc hcc hne
    by_cases hc : curId = 0
    · rw [hc, outlineGo_zero_id]
      exact goResultInv_trivial parent 0 count ctr it prev
    · cases it with
      | nil =>
        rw [outlineGo_nil fuel parent curId prev count ctr hc]
        exact goResultInv_trivial parent curId count ctr [] prev
      | cons oitem it1 =>
        rw [outlineGo_succ fuel parent oitem it1 curId prev count ctr hc]
        have hs := subOf_inv fuel curId oitem it1 ctr ih hc hcc
        have hs1 := hs.1
        have hna := nextAllocOf_shape oitem (subOf fuel curId oitem it1 ctr)
        have hA : parent < (nextAllocOf oitem (subOf fuel curId oitem it1 ctr)).2 := by
          rcases hna with ⟨h1, h2⟩ | ⟨h1, h2⟩ <;> omega
        have hB : (nextAllocOf oitem (subOf fuel curId oitem it1 ctr)).1
            < (nextAllocOf oitem (subOf fuel curId oitem it1 ctr)).2 := by
          rcases hna with ⟨h1, h2⟩ | ⟨h1, h2⟩ <;> omega
        have hC : parent ≠ (nextAllocOf oitem (subOf fuel curId oitem it1 ctr)).1 := by
          rcases hna with ⟨h1, h2⟩ | ⟨h1, h2⟩ <;> omega
        exact goAssembleInv parent curId count ctr
          (subOf fuel curId oitem it1 ctr)
          (nextAllocOf oitem (subOf fuel curId oitem it1 ctr))
          (outlineGo fuel parent (subOf fuel curId oitem it1 ctr).rest
            (nextAllocOf oitem (subOf fuel curId oitem it1 ctr)).1 curId (count + 1)
            (nextAllocOf oitem (subOf fuel curId oitem it1 ctr)).2)
          _ hs hna
          (ih parent (subOf fuel curId oitem it1 ctr).rest
            (nextAllocOf oitem (subOf fuel curId oitem it1 ctr)).1 curId (count + 1)
            (nextAllocOf oitem (subOf fuel curId oitem it1 ctr)).2 hp hA hB hC)
          rfl rfl rfl hp hpc hcc hne hc

theorem outlineRecurse_inv (fuel parent : Nat) (it : List OEntry) (ctr : Nat)
    (hp : 0 < parent) (hpc : parent < ctr) :
    recResultInv parent ctr (outlineRecurse fuel parent it ctr) := by
  cases it with
  | nil => exact recResultInv_trivial parent ctr []
  | cons oitem it1 =>
    exact recResultInv_ofGo parent ctr _
      (outlineGo_inv fuel parent (oitem :: it1) ctr 0 0 (ctr + 1)
        hp (by omega) (by omega) (by omega))

/-- C2 counterexample: with the well-nested levels `[1,2,3]` the single
top-level node owns two descendants (one direct child which itself has one
child), yet its written `/Count` is `-1` — `recurse` counts only the
direct-sibling run one level down, not transitive descendants, so the
claimed "total number of descendant nodes directly and transitively owned"
is wrong.  Moreover with levels `[1,3,2]` the level-2 entry (title 3) is
never written at all — the claimed rule "a deeper-level entry becomes a
child of the nearest preceding shallower entry" fails: 3 entries were
recorded but only 2 dictionaries come out, and none carries title 3. -/
theorem outline_tree_cex :
    ((cexOutA.filter (fun d => d.title = 1)).map
        (fun d => (d.child.map (fun t => t.2.2), descCount cexOutA.length cexOutA d.curId)))
      = [(some (-1), 2)] ∧
    cexOutlinesB.length = 3 ∧
    cexOutB.length = 2 ∧
    cexOutB.filter (fun d => d.title = 3) = [] ∧
    cexOutlinesB.filter (fun e => e.title = 3) ≠ [] := by
  decide

/-- C2 (amended): flush-time resolution writes, for each parent with
children, a child count equal to the number of nodes directly owned (its
direct children in the written output), negative as the collapsed-by-default
convention, and a parent with no children omits its child-list references
(`/First`/`/Last`/`/Count`) entirely; the root `/Count` is the number of
top-level nodes.  In particular levels `[1,2,2,1]` yield a root list of two
top-level nodes, the first owning the two level-2 entries as children with
written count `-2`, the second with zero children and no child-list
references. -/
theorem outline_tree_amended :
    (∀ (outlines : List OEntry) (ctr : Nat) (out : List ODict) (root : OutlineRoot),
        0 < ctr → flushOutlines outlines ctr = some (out, root) →
        (∀ d ∈ out,
          childCountNat d = (directChildren out d.curId).length ∧
          (d.child = none ↔ directChildren out d.curId = [])) ∧
        root.count = ((directChildren out root.outlineId).length : Int)) ∧
    flushOutlines ex1221 1 = some (ex1221Out, ex1221Root) ∧
    (directChildren ex1221Out ex1221Root.outlineId).map (fun d => d.title) = [1, 4] ∧
    ex1221Root.count = 2 ∧
    (ex1221Out.filter (fun d => d.title = 1)).map (fun d => d.child) = [some (3, 4, -2)] ∧
    (directChildren ex1221Out 2).map (fun d => d.title) = [2, 3] ∧
    (ex1221Out.filter (fun d => d.title = 4)).map (fun d => d.child) = [none] := by
  refine ⟨?_, by decide, by decide, by decide, by decide, by decide, by decide⟩
  intro outlines ctr out root h0 heq
  cases outlines with
  | nil => simp [flushOutlines] at heq
  | cons o t =>
    have heq2 : some ((outlineRecurse ((o :: t).length + 1) ctr (o :: t) (ctr + 1)).out,
        ({ outlineId := ctr,
           firstId := (outlineRecurse ((o :: t).length + 1) ctr (o :: t) (ctr + 1)).firstId,
           lastId := (outlineRecurse ((o :: t).length + 1) ctr (o :: t) (ctr + 1)).lastId,
           count := ((outlineRecurse ((o :: t).length + 1) ctr (o :: t) (ctr + 1)).count : Int) } :
          OutlineRoot)) = some (out, root) := heq
    have hpair := Option.some.inj heq2
    rw [Prod.mk.injEq] at hpair
    obtain ⟨hout, hroot⟩ := hpair
    have hrec := outlineRecurse_inv ((o :: t).length + 1) ctr (o :: t) (ctr + 1) h0 (by omega)
    obtain ⟨_, _, _, hc4, hc5⟩ := hrec
    constructor
    · rw [← hout]
      exact hc5
    · rw [← hout, ← hroot]
      dsimp only
      exact_mod_cast hc4

/-- Witness for `outline_tree_amended`: the general count/omission law
instantiated at the `[1,2,2,1]` example, hypotheses discharged by
computation. -/
theorem outline_tree_amended_witness :
    (0 : Nat) < 1 ∧
    ((∀ d ∈ ex1221Out,
        childCountNat d = (directChildren ex1221Out d.curId).length ∧
        (d.child = none ↔ directChildren ex1221Out d.curId = [])) ∧
      ex1221Root.count = ((directChildren ex1221Out ex1221Root.outlineId).length : Int)) :=
  ⟨by decide, outline_tree_amended.1 ex1221 1 ex1221Out ex1221Root (by decide) (by decide)⟩

end PdfHummus
